import Mathlib

/-!
Verification of the rs-ipfix-rw IPFIX codec (src/parser.rs, src/template_store.rs).

The byte stream is modelled as `List Nat` (each entry a byte value `< 256`);
machine integers are `Nat` (unsigned) and `Int` (signed) with explicit
`% 2 ^ w` arithmetic. IEEE `f32`/`f64` values are modelled by their bit
patterns (a `Nat` below `2 ^ 32` resp. `2 ^ 64`), which is exactly what the
codec reads and writes. Fallible operations return `Except BinError`.
Reading threads an `RState` (remaining bytes plus absolute offset); the
seek-and-backpatch write path of `Message` and `Set` threads a `WState`
(buffer plus cursor).
-/

namespace Ipfix

set_option maxRecDepth 20000

/-- Read-side stream state: the remaining input bytes and the absolute
stream position (number of bytes already consumed). -/
structure RState where
  buf : List Nat
  pos : Nat
deriving DecidableEq, Repr

/-- A list is a valid byte string when every entry is below 256. -/
def ValidBytes (bs : List Nat) : Prop := ∀ b ∈ bs, b < 256

instance : DecidablePred ValidBytes := fun bs =>
  inferInstanceAs (Decidable (∀ b ∈ bs, b < 256))

/-- Value types from `DataRecordType` in src/parser.rs. -/
inductive DataRecordType
  | UnsignedInt
  | SignedInt
  | Float
  | Bool
  | MacAddress
  | Bytes
  | String
  | DateTimeSeconds
  | DateTimeMilliseconds
  | DateTimeMicroseconds
  | DateTimeNanoseconds
  | Ipv4Addr
  | Ipv6Addr
deriving DecidableEq, Repr

/-- Field descriptor from `FieldSpecifier` in src/parser.rs
(`information_element_identifier : u16`, `field_length : u16`,
`enterprise_number : Option<u32>`). -/
structure FieldSpecifier where
  information_element_identifier : Nat
  field_length : Nat
  enterprise_number : Option Nat
deriving DecidableEq, Repr

/-- Keys of a data record map, from `DataRecordKey` in src/parser.rs. -/
inductive DataRecordKey
  | Str (s : String)
  | Unrecognized (fs : FieldSpecifier)
  | Err (e : String)
deriving DecidableEq, Repr

/-- Runtime values from `DataRecordValue` in src/parser.rs. `F32`/`F64`
carry the IEEE bit pattern; `String` carries the UTF-8 bytes of the Rust
`String`; `MacAddress` is the 6-byte array. -/
inductive DataRecordValue
  | U8 (v : Nat)
  | U16 (v : Nat)
  | U32 (v : Nat)
  | U40 (v : Nat)
  | U64 (v : Nat)
  | I8 (v : Int)
  | I16 (v : Int)
  | I32 (v : Int)
  | I64 (v : Int)
  | F32 (bits : Nat)
  | F64 (bits : Nat)
  | Bool (b : Bool)
  | MacAddress (m : List Nat)
  | Bytes (payload : List Nat)
  | String (payload : List Nat)
  | DateTimeSeconds (v : Nat)
  | DateTimeMilliseconds (v : Nat)
  | DateTimeMicroseconds (v : Nat)
  | DateTimeNanoseconds (v : Nat)
  | Ipv4Addr (v : Nat)
  | Ipv6Addr (v : Nat)
deriving DecidableEq, Repr

/-- The error enum `IpfixError` from src/parser.rs. -/
inductive IpfixError
  | MissingTemplate (id : Nat)
  | MissingData (key : DataRecordKey)
  | InvalidFieldSpecLength (ty : DataRecordType) (length : Nat)
deriving DecidableEq, Repr

/-- Errors surfaced while reading or writing, covering `binrw::Error`:
short reads, magic mismatch, assertion failures, and the custom errors
this codec raises (which carry a stream position). -/
inductive BinError
  | eof
  | badMagic (pos : Nat)
  | assertFail (msg : String)
  | custom (pos : Nat) (err : IpfixError)
  | customStr (pos : Nat) (msg : String)
deriving DecidableEq, Repr

instance {ε α : Type} [DecidableEq ε] [DecidableEq α] : DecidableEq (Except ε α) :=
  fun x y =>
    match x, y with
    | .error a, .error b =>
      if h : a = b then .isTrue (h ▸ rfl) else .isFalse (fun c => h (by injection c))
    | .ok a, .ok b =>
      if h : a = b then .isTrue (h ▸ rfl) else .isFalse (fun c => h (by injection c))
    | .error _, .ok _ => .isFalse (fun c => Except.noConfusion c)
    | .ok _, .error _ => .isFalse (fun c => Except.noConfusion c)

/-- Read a single byte (`u8`) from the stream. -/
def readByte (st : RState) : Except BinError (Nat × RState) :=
  match st.buf with
  | [] => .error .eof
  | b :: rest => .ok (b, ⟨rest, st.pos + 1⟩)

/-- Read exactly `n` raw bytes (`read_exact` / binrw `count`). -/
def readBytes (n : Nat) (st : RState) : Except BinError (List Nat × RState) :=
  if n ≤ st.buf.length then .ok (st.buf.take n, ⟨st.buf.drop n, st.pos + n⟩)
  else .error .eof

/-- Big-endian value of a byte string (network byte order, RFC 7011). -/
def beVal : List Nat → Nat
  | [] => 0
  | b :: rest => b * 256 ^ rest.length + beVal rest

/-- Big-endian encoding of `n` into exactly `k` bytes (low `8 * k` bits). -/
def beBytes : Nat → Nat → List Nat
  | 0, _ => []
  | k + 1, n => (n / 256 ^ k) % 256 :: beBytes k (n % 256 ^ k)

/-- Read a `k`-byte big-endian unsigned integer. -/
def readBE (k : Nat) (st : RState) : Except BinError (Nat × RState) :=
  match readBytes k st with
  | .error e => .error e
  | .ok (bs, st') => .ok (beVal bs, st')

/-- Interpret a `k`-byte big-endian unsigned value as a two's-complement
signed integer (binrw reading of `i8`/`i16`/`i32`/`i64`). -/
def signedOfBE (k : Nat) (n : Nat) : Int :=
  if n < 2 ^ (8 * k - 1) then (n : Int) else (n : Int) - 2 ^ (8 * k)

/-- Two's-complement `k`-byte big-endian encoding of a signed integer
(binrw writing of `i8`/`i16`/`i32`/`i64`). -/
def beBytesOfInt (k : Nat) (i : Int) : List Nat :=
  beBytes k (i % ((2 : Int) ^ (8 * k))).toNat

section BitBridge

theorem lor_mod_two_pow (x y n : Nat) :
    (x ||| y) % 2 ^ n = (x % 2 ^ n) ||| (y % 2 ^ n) := by
  apply Nat.eq_of_testBit_eq
  intro i
  simp only [Nat.testBit_mod_two_pow, Nat.testBit_or]
  cases hxi : x.testBit i <;> cases hyi : y.testBit i <;> cases Nat.decLt i n <;>
    simp_all

theorem lor_div_two_pow (x y n : Nat) :
    (x ||| y) / 2 ^ n = (x / 2 ^ n) ||| (y / 2 ^ n) := by
  have h : ∀ z : Nat, z / 2 ^ n = z >>> n := fun z =>
    (Nat.shiftRight_eq_div_pow z n).symm
  rw [h, h, h]
  apply Nat.eq_of_testBit_eq
  intro i
  simp [Nat.testBit_shiftRight, Nat.testBit_or]

theorem pow_mul_lor_eq_add (n a b : Nat) (hb : b < 2 ^ n) :
    (2 ^ n * a) ||| b = 2 ^ n * a + b := by
  have hmod : ((2 ^ n * a) ||| b) % 2 ^ n = b := by
    rw [lor_mod_two_pow, Nat.mul_mod_right, Nat.mod_eq_of_lt hb, Nat.zero_or]
  have hdiv : ((2 ^ n * a) ||| b) / 2 ^ n = a := by
    rw [lor_div_two_pow, Nat.mul_div_cancel_left a (Nat.pos_pow_of_pos n (by norm_num)),
      Nat.div_eq_of_lt hb, Nat.or_zero]
  have := Nat.div_add_mod ((2 ^ n * a) ||| b) (2 ^ n)
  rw [hdiv, hmod] at this
  omega

theorem shiftLeft_lor_eq_add (a b n : Nat) (hb : b < 2 ^ n) :
    (a <<< n) ||| b = a * 2 ^ n + b := by
  rw [Nat.shiftLeft_eq, Nat.mul_comm a (2 ^ n), pow_mul_lor_eq_add n a b hb,
    Nat.mul_comm (2 ^ n) a]

theorem and_255_eq_mod (x : Nat) : x &&& 255 = x % 256 := by
  have := Nat.and_pow_two_sub_one_eq_mod x 8
  norm_num at this
  exact this

theorem shiftRight_eq_div (x n : Nat) : x >>> n = x / 2 ^ n :=
  Nat.shiftRight_eq_div_pow x n

end BitBridge

section BEFacts

theorem beBytes_length (k n : Nat) : (beBytes k n).length = k := by
  induction k generalizing n with
  | zero => rfl
  | succ k ih => simp [beBytes, ih]

theorem beBytes_valid (k n : Nat) : ValidBytes (beBytes k n) := by
  induction k generalizing n with
  | zero => intro b hb; simp [beBytes] at hb
  | succ k ih =>
    intro b hb
    simp only [beBytes, List.mem_cons] at hb
    rcases hb with h | h
    · subst h; exact Nat.mod_lt _ (by norm_num)
    · exact ih _ b h

theorem beVal_lt (bs : List Nat) (h : ValidBytes bs) : beVal bs < 256 ^ bs.length := by
  induction bs with
  | nil => simp [beVal]
  | cons b rest ih =>
    have hb : b < 256 := h b (List.mem_cons_self _ _)
    have hr : beVal rest < 256 ^ rest.length :=
      ih (fun x hx => h x (List.mem_cons_of_mem _ hx))
    have : (b + 1) * 256 ^ rest.length ≤ 256 ^ (rest.length + 1) := by
      have : b + 1 ≤ 256 := hb
      calc (b + 1) * 256 ^ rest.length ≤ 256 * 256 ^ rest.length :=
            Nat.mul_le_mul_right _ this
        _ = 256 ^ (rest.length + 1) := by ring
    simp only [beVal, List.length_cons]
    calc b * 256 ^ rest.length + beVal rest
        < b * 256 ^ rest.length + 256 ^ rest.length := by omega
      _ = (b + 1) * 256 ^ rest.length := by ring
      _ ≤ 256 ^ (rest.length + 1) := this

theorem beVal_beBytes (k n : Nat) (h : n < 256 ^ k) : beVal (beBytes k n) = n := by
  induction k generalizing n with
  | zero =>
    simp only [beBytes, beVal]
    simp only [pow_zero] at h
    omega
  | succ k ih =>
    have hmod : n % 256 ^ k < 256 ^ k := Nat.mod_lt _ (Nat.pos_pow_of_pos k (by norm_num))
    have hdiv : n / 256 ^ k < 256 := by
      apply Nat.div_lt_of_lt_mul
      calc n < 256 ^ (k + 1) := h
        _ = 256 ^ k * 256 := by ring
    simp only [beBytes, beVal, beBytes_length, ih _ hmod, Nat.mod_eq_of_lt hdiv]
    rw [Nat.mul_comm]
    exact Nat.div_add_mod n (256 ^ k)

theorem beBytes_beVal (bs : List Nat) (h : ValidBytes bs) :
    beBytes bs.length (beVal bs) = bs := by
  induction bs with
  | nil => rfl
  | cons b rest ih =>
    have hb : b < 256 := h b (List.mem_cons_self _ _)
    have hrest : ValidBytes rest := fun x hx => h x (List.mem_cons_of_mem _ hx)
    have hr : beVal rest < 256 ^ rest.length := beVal_lt rest hrest
    have hpos : 0 < 256 ^ rest.length := Nat.pos_pow_of_pos _ (by norm_num)
    have h1 : (b * 256 ^ rest.length + beVal rest) / 256 ^ rest.length = b := by
      rw [Nat.add_comm, Nat.add_mul_div_right _ _ hpos, Nat.div_eq_of_lt hr]
      omega
    have h2 : (b * 256 ^ rest.length + beVal rest) % 256 ^ rest.length = beVal rest := by
      rw [Nat.add_comm, Nat.add_mul_mod_self_right, Nat.mod_eq_of_lt hr]
    show beBytes (rest.length + 1) (b * 256 ^ rest.length + beVal rest) = b :: rest
    simp only [beBytes, h1, h2, Nat.mod_eq_of_lt hb, ih hrest]

end BEFacts

/-- The function `read_u40` from src/parser.rs: read exactly 5 bytes and
assemble `b0 << 32 | b1 << 24 | b2 << 16 | b3 << 8 | b4`. -/
def read_u40 (st : RState) : Except BinError (Nat × RState) := do
  let (b0, st) ← readByte st
  let (b1, st) ← readByte st
  let (b2, st) ← readByte st
  let (b3, st) ← readByte st
  let (b4, st) ← readByte st
  pure ((b0 <<< 32) ||| (b1 <<< 24) ||| (b2 <<< 16) ||| (b3 <<< 8) ||| b4, st)

/-- The 5 bytes emitted for a `U40` value by the `try_map` in
`DataRecordValue::U40` (src/parser.rs): shift-and-mask extraction. -/
def u40WriteBytes (x : Nat) : List Nat :=
  [(x >>> 32) &&& 255, (x >>> 24) &&& 255, (x >>> 16) &&& 255, (x >>> 8) &&& 255,
    x &&& 255]

/-- The function `read_variable_length` from src/parser.rs: if the declared
template length is the sentinel `0xFFFF`, the actual length is inline (one
byte, or `255` followed by an extended 2-byte length); otherwise the
declared length is used directly. Then read that many content bytes. -/
def read_variable_length (length : Nat) (st : RState) :
    Except BinError (List Nat × RState) :=
  match (if length = 65535 then
      match readByte st with
      | .error e => .error e
      | .ok (var_length, st) =>
        if var_length = 255 then readBE 2 st
        else .ok (var_length, st)
    else .ok (length, st) : Except BinError (Nat × RState)) with
  | .error e => .error e
  | .ok (actual_length, st) => readBytes actual_length st

/-- Continuation byte test for UTF-8 (`0x80 ≤ b ≤ 0xBF`). -/
def isCont (b : Nat) : Bool := 128 ≤ b && b ≤ 191

/-- UTF-8 validity of a byte string, as checked by Rust
`String::from_utf8` (RFC 3629 table: no overlongs, no surrogates,
no code points above U+10FFFF). -/
def utf8Valid : List Nat → Bool
  | [] => true
  | b :: rest =>
    if b ≤ 127 then utf8Valid rest
    else if 194 ≤ b && b ≤ 223 then
      match rest with
      | c1 :: r => isCont c1 && utf8Valid r
      | [] => false
    else if b = 224 then
      match rest with
      | c1 :: c2 :: r => (160 ≤ c1 && c1 ≤ 191) && isCont c2 && utf8Valid r
      | _ => false
    else if (225 ≤ b && b ≤ 236) || b = 238 || b = 239 then
      match rest with
      | c1 :: c2 :: r => isCont c1 && isCont c2 && utf8Valid r
      | _ => false
    else if b = 237 then
      match rest with
      | c1 :: c2 :: r => (128 ≤ c1 && c1 ≤ 159) && isCont c2 && utf8Valid r
      | _ => false
    else if b = 240 then
      match rest with
      | c1 :: c2 :: c3 :: r =>
        (144 ≤ c1 && c1 ≤ 191) && isCont c2 && isCont c3 && utf8Valid r
      | _ => false
    else if 241 ≤ b && b ≤ 243 then
      match rest with
      | c1 :: c2 :: c3 :: r => isCont c1 && isCont c2 && isCont c3 && utf8Valid r
      | _ => false
    else if b = 244 then
      match rest with
      | c1 :: c2 :: c3 :: r =>
        (128 ≤ c1 && c1 ≤ 143) && isCont c2 && isCont c3 && utf8Valid r
      | _ => false
    else false

/-- The decode dispatch `impl BinRead for DataRecordValue` in
src/parser.rs: dispatch on the literal `(type, length)` pair; any pair
outside the supported table fails with `InvalidFieldSpecLength` at the
current stream position. The Rust `match` on literal pairs is rendered as
a match on the type with an equality dispatch on the length. -/
def dataRecordValueRead (ty : DataRecordType) (length : Nat) (st : RState) :
    Except BinError (DataRecordValue × RState) :=
  let invalid : Except BinError (DataRecordValue × RState) :=
    .error (.custom st.pos (.InvalidFieldSpecLength ty length))
  match ty with
  | .UnsignedInt =>
    if length = 1 then do
      let (v, st) ← readByte st
      pure (.U8 v, st)
    else if length = 2 then do
      let (v, st) ← readBE 2 st
      pure (.U16 v, st)
    else if length = 4 then do
      let (v, st) ← readBE 4 st
      pure (.U32 v, st)
    else if length = 5 then do
      let (v, st) ← read_u40 st
      pure (.U40 v, st)
    else if length = 8 then do
      let (v, st) ← readBE 8 st
      pure (.U64 v, st)
    else invalid
  | .SignedInt =>
    if length = 1 then do
      let (v, st) ← readBE 1 st
      pure (.I8 (signedOfBE 1 v), st)
    else if length = 2 then do
      let (v, st) ← readBE 2 st
      pure (.I16 (signedOfBE 2 v), st)
    else if length = 4 then do
      let (v, st) ← readBE 4 st
      pure (.I32 (signedOfBE 4 v), st)
    else if length = 8 then do
      let (v, st) ← readBE 8 st
      pure (.I64 (signedOfBE 8 v), st)
    else invalid
  | .Float =>
    if length = 4 then do
      let (v, st) ← readBE 4 st
      pure (.F32 v, st)
    else if length = 8 then do
      let (v, st) ← readBE 8 st
      pure (.F64 v, st)
    else invalid
  | .Bool =>
    if length = 1 then do
      let (b, st) ← readByte st
      pure (.Bool (b == 1), st)
    else invalid
  | .MacAddress =>
    if length = 6 then do
      let (m, st) ← readBytes 6 st
      pure (.MacAddress m, st)
    else invalid
  | .Bytes => do
    let (payload, st) ← read_variable_length length st
    pure (.Bytes payload, st)
  | .String => do
    let (payload, st') ← read_variable_length length st
    if utf8Valid payload then
      pure (.String payload, st')
    else
      .error (.customStr st'.pos "invalid utf-8")
  | .DateTimeSeconds =>
    if length = 4 then do
      let (v, st) ← readBE 4 st
      pure (.DateTimeSeconds v, st)
    else invalid
  | .DateTimeMilliseconds =>
    if length = 8 then do
      let (v, st) ← readBE 8 st
      pure (.DateTimeMilliseconds v, st)
    else invalid
  | .DateTimeMicroseconds =>
    if length = 8 then do
      let (v, st) ← readBE 8 st
      pure (.DateTimeMicroseconds v, st)
    else invalid
  | .DateTimeNanoseconds =>
    if length = 8 then do
      let (v, st) ← readBE 8 st
      pure (.DateTimeNanoseconds v, st)
    else invalid
  | .Ipv4Addr =>
    if length = 4 then do
      let (v, st) ← readBE 4 st
      pure (.Ipv4Addr v, st)
    else invalid
  | .Ipv6Addr =>
    if length = 16 then do
      let (v, st) ← readBE 16 st
      pure (.Ipv6Addr v, st)
    else invalid

/-- The inline length prefix emitted for variable-length `Bytes`/`String`
values by the `#[bw(...)]` calc fields in src/parser.rs: present only when
the declared template length is the `0xFFFF` sentinel; one byte when the
payload is shorter than 255 bytes, otherwise the byte `255` followed by a
2-byte extended length (whose `try_calc` fails above `0xFFFF`). -/
def varLenPrefix (length : Nat) (payloadLen : Nat) : Except BinError (List Nat) :=
  if length = 65535 then
    if payloadLen < 255 then .ok [payloadLen]
    else if payloadLen ≤ 65535 then .ok (255 :: beBytes 2 payloadLen)
    else .error (.customStr 0 "out of range integral type conversion attempted")
  else .ok []

/-- The encode dispatch `DataRecordValue` `#[binwrite]` in src/parser.rs,
with the declared template length as the `length` import. -/
def dataRecordValueWrite (length : Nat) : DataRecordValue → Except BinError (List Nat)
  | .U8 v => .ok [v]
  | .U16 v => .ok (beBytes 2 v)
  | .U32 v => .ok (beBytes 4 v)
  | .U40 x =>
    if x > 0xFFFFFFFFFF then .error (.customStr 0 "Value too large for U40")
    else .ok (u40WriteBytes x)
  | .U64 v => .ok (beBytes 8 v)
  | .I8 v => .ok (beBytesOfInt 1 v)
  | .I16 v => .ok (beBytesOfInt 2 v)
  | .I32 v => .ok (beBytesOfInt 4 v)
  | .I64 v => .ok (beBytesOfInt 8 v)
  | .F32 bits => .ok (beBytes 4 bits)
  | .F64 bits => .ok (beBytes 8 bits)
  | .Bool b => .ok [if b then 1 else 2]
  | .MacAddress m => .ok m
  | .Bytes payload => do
    let p ← varLenPrefix length payload.length
    pure (p ++ payload)
  | .String payload => do
    let p ← varLenPrefix length payload.length
    pure (p ++ payload)
  | .DateTimeSeconds v => .ok (beBytes 4 v)
  | .DateTimeMilliseconds v => .ok (beBytes 8 v)
  | .DateTimeMicroseconds v => .ok (beBytes 8 v)
  | .DateTimeNanoseconds v => .ok (beBytes 8 v)
  | .Ipv4Addr v => .ok (beBytes 4 v)
  | .Ipv6Addr v => .ok (beBytes 16 v)

/-- The supported `(type, length)` decode table of
`impl BinRead for DataRecordValue` (src/parser.rs): exactly the pairs with
a dedicated match arm; `Bytes` and `String` accept every declared length. -/
def supportedPair (ty : DataRecordType) (length : Nat) : Bool :=
  match ty with
  | .UnsignedInt => length = 1 || length = 2 || length = 4 || length = 5 || length = 8
  | .SignedInt => length = 1 || length = 2 || length = 4 || length = 8
  | .Float => length = 4 || length = 8
  | .Bool => length = 1
  | .MacAddress => length = 6
  | .Bytes => true
  | .String => true
  | .DateTimeSeconds => length = 4
  | .DateTimeMilliseconds => length = 8
  | .DateTimeMicroseconds => length = 8
  | .DateTimeNanoseconds => length = 8
  | .Ipv4Addr => length = 4
  | .Ipv6Addr => length = 16

/-- Decoding a `FieldSpecifier` (src/parser.rs): read the raw 16-bit
identifier slot, mask off bit 15 (`raw & (u16::MAX >> 1)`), read the
16-bit field length, and read a 4-byte enterprise number iff
`raw >> 15 == 1`. -/
def fieldSpecifierRead (st : RState) : Except BinError (FieldSpecifier × RState) := do
  let (raw, st) ← readBE 2 st
  let information_element_identifier := raw &&& (65535 >>> 1)
  let (field_length, st) ← readBE 2 st
  let (enterprise_number, st) ←
    if raw >>> 15 = 1 then do
      let (e, st) ← readBE 4 st
      pure (some e, st)
    else
      pure ((none : Option Nat), st)
  pure (⟨information_element_identifier, field_length, enterprise_number⟩, st)

/-- Encoding a `FieldSpecifier` (src/parser.rs): the raw identifier slot is
`information_element_identifier | (enterprise_number.is_some() << 15)`,
then the field length, then the 4-byte enterprise number when present. -/
def fieldSpecifierWrite (fs : FieldSpecifier) : List Nat :=
  beBytes 2
      (fs.information_element_identifier |||
        ((if fs.enterprise_number.isSome then 1 else 0) <<< 15)) ++
    beBytes 2 fs.field_length ++
    (match fs.enterprise_number with
     | some e => beBytes 4 e
     | none => [])

/-- The struct `TemplateRecord` from src/parser.rs. The field count is not
stored: it is derived from the vector when writing. -/
structure TemplateRecord where
  template_id : Nat
  field_specifiers : List FieldSpecifier
deriving DecidableEq, Repr

/-- The struct `OptionsTemplateRecord` from src/parser.rs. -/
structure OptionsTemplateRecord where
  template_id : Nat
  scope_field_count : Nat
  field_specifiers : List FieldSpecifier
deriving DecidableEq, Repr

/-- Read `n` successive items (binrw `count = n`). -/
def readCount {α : Type} (p : RState → Except BinError (α × RState)) :
    Nat → RState → Except BinError (List α × RState)
  | 0, st => .ok ([], st)
  | n + 1, st =>
    match p st with
    | .error e => .error e
    | .ok (x, st') =>
      match readCount p n st' with
      | .error e => .error e
      | .ok (xs, st'') => .ok (x :: xs, st'')

/-- Decoding a `TemplateRecord` (src/parser.rs): `template_id`, a
`field_count` that bounds the specifier vector, then the specifiers; the
struct-level `#[br(assert(template_id > 255))]` runs after the fields are
read. -/
def templateRecordRead (st : RState) : Except BinError (TemplateRecord × RState) := do
  let (template_id, st) ← readBE 2 st
  let (field_count, st) ← readBE 2 st
  let (field_specifiers, st) ← readCount fieldSpecifierRead field_count st
  if template_id > 255 then
    pure (⟨template_id, field_specifiers⟩, st)
  else
    .error (.assertFail "Template IDs 0-255 are reserved")

/-- Decoding an `OptionsTemplateRecord` (src/parser.rs): like
`TemplateRecord` but with a `scope_field_count` field after the count. -/
def optionsTemplateRecordRead (st : RState) :
    Except BinError (OptionsTemplateRecord × RState) := do
  let (template_id, st) ← readBE 2 st
  let (field_count, st) ← readBE 2 st
  let (scope_field_count, st) ← readBE 2 st
  let (field_specifiers, st) ← readCount fieldSpecifierRead field_count st
  if template_id > 255 then
    pure (⟨template_id, scope_field_count, field_specifiers⟩, st)
  else
    .error (.assertFail "Template IDs 0-255 are reserved")

/-- Encoding a `TemplateRecord` (src/parser.rs): the field count is
`try_calc`-derived from the vector length (a `u16`, so it fails above
65535); there is no write-side check of `template_id`. -/
def templateRecordWrite (tr : TemplateRecord) : Except BinError (List Nat) :=
  if tr.field_specifiers.length ≤ 65535 then
    .ok (beBytes 2 tr.template_id ++ beBytes 2 tr.field_specifiers.length ++
      (tr.field_specifiers.map fieldSpecifierWrite).flatten)
  else
    .error (.customStr 0 "out of range integral type conversion attempted")

/-- Encoding an `OptionsTemplateRecord` (src/parser.rs). -/
def optionsTemplateRecordWrite (otr : OptionsTemplateRecord) :
    Except BinError (List Nat) :=
  if otr.field_specifiers.length ≤ 65535 then
    .ok (beBytes 2 otr.template_id ++ beBytes 2 otr.field_specifiers.length ++
      beBytes 2 otr.scope_field_count ++
      (otr.field_specifiers.map fieldSpecifierWrite).flatten)
  else
    .error (.customStr 0 "out of range integral type conversion attempted")

/-- The struct `ExpandedFieldSpecifier` from src/template_store.rs. -/
structure ExpandedFieldSpecifier where
  name : DataRecordKey
  ty : DataRecordType
  enterprise_number : Option Nat
  information_element_identifier : Nat
  field_length : Nat
deriving DecidableEq, Repr

/-- The enum `Template` from src/template_store.rs. -/
inductive Template
  | template (fs : List ExpandedFieldSpecifier)
  | optionsTemplate (fs : List ExpandedFieldSpecifier)
deriving DecidableEq, Repr

/-- The external information-element registry (`Formatter` from the
out-of-scope src/information_elements.rs, specified in the design as a
read-only lookup keyed by `(enterprise_number, element_id)`). -/
abbrev Formatter : Type := Nat → Nat → Option (String × DataRecordType)

/-- `ExpandedFieldSpecifier::from_field_spec` (src/template_store.rs):
resolve `(enterprise_number.unwrap_or(0), identifier)` through the
formatter; on a miss, key the field by the raw specifier and default to
the raw-bytes type. -/
def from_field_spec (fs : FieldSpecifier) (formatter : Formatter) :
    ExpandedFieldSpecifier :=
  match formatter (fs.enterprise_number.getD 0) fs.information_element_identifier with
  | some (name, ty) =>
    ⟨.Str name, ty, fs.enterprise_number, fs.information_element_identifier,
      fs.field_length⟩
  | none =>
    ⟨.Unrecognized fs, .Bytes, fs.enterprise_number,
      fs.information_element_identifier, fs.field_length⟩

/-- The template registry, modelled as an association list from template
id to `Template`; `insert` overwrites any prior entry (Rust `HashMap`
insert semantics). -/
abbrev TemplateStore : Type := List (Nat × Template)

/-- `get_template` from src/template_store.rs: registry lookup, no side
effect. -/
def getTemplate (store : TemplateStore) (template_id : Nat) : Option Template :=
  match store.find? (fun p => p.1 = template_id) with
  | some p => some p.2
  | none => none

/-- `insert_template` from src/template_store.rs: unconditional overwrite
of any prior entry under the same id. -/
def insertTemplate (store : TemplateStore) (template_id : Nat) (t : Template) :
    TemplateStore :=
  (template_id, t) :: store

/-- `insert_template_records` from src/template_store.rs: expand every
field specifier of every record via the formatter and install the result
under the record's template id. -/
def insert_template_records (store : TemplateStore) (trs : List TemplateRecord)
    (formatter : Formatter) : TemplateStore :=
  trs.foldl
    (fun s tr =>
      insertTemplate s tr.template_id
        (.template (tr.field_specifiers.map (from_field_spec · formatter))))
    store

/-- `insert_options_template_records` from src/template_store.rs. -/
def insert_options_template_records (store : TemplateStore)
    (otrs : List OptionsTemplateRecord) (formatter : Formatter) : TemplateStore :=
  otrs.foldl
    (fun s otr =>
      insertTemplate s otr.template_id
        (.optionsTemplate (otr.field_specifiers.map (from_field_spec · formatter))))
    store

/-- The value map of a `DataRecord` (src/parser.rs), modelled as an
association list with `HashMap`-insert semantics (`mapInsert`). -/
structure DataRecord where
  values : List (DataRecordKey × DataRecordValue)
deriving DecidableEq, Repr

/-- Rust `HashMap::insert`: replace the value when the key is present,
otherwise add a new entry. -/
def mapInsert (m : List (DataRecordKey × DataRecordValue)) (k : DataRecordKey)
    (v : DataRecordValue) : List (DataRecordKey × DataRecordValue) :=
  if m.any (fun p => p.1 = k) then
    m.map (fun p => if p.1 = k then (k, v) else p)
  else
    m ++ [(k, v)]

/-- Rust `HashMap::get`. -/
def mapGet (m : List (DataRecordKey × DataRecordValue)) (k : DataRecordKey) :
    Option DataRecordValue :=
  match m.find? (fun p => p.1 = k) with
  | some p => some p.2
  | none => none

/-- The field loop of `impl BinRead for DataRecord` (src/parser.rs): for
each expanded specifier in template order, decode a value under the
specifier's `(type, length)` and insert it under the resolved key. -/
def readFields (acc : List (DataRecordKey × DataRecordValue)) (st : RState) :
    List ExpandedFieldSpecifier →
    Except BinError (List (DataRecordKey × DataRecordValue) × RState)
  | [] => .ok (acc, st)
  | f :: rest =>
    match dataRecordValueRead f.ty f.field_length st with
    | .error e => .error e
    | .ok (v, st') => readFields (mapInsert acc f.name v) st' rest

/-- `impl BinRead for DataRecord` (src/parser.rs): look the set id up in
the template registry (absence is `MissingTemplate` at the current
position), then decode each field in template order. Template and
options-template field lists are treated identically. -/
def dataRecordRead (set_id : Nat) (store : TemplateStore) (st : RState) :
    Except BinError (DataRecord × RState) :=
  match getTemplate store set_id with
  | none => .error (.custom st.pos (.MissingTemplate set_id))
  | some t =>
    let field_specifiers := match t with
      | .template fs => fs
      | .optionsTemplate fs => fs
    match readFields [] st field_specifiers with
    | .error e => .error e
    | .ok (values, st') => .ok (⟨values⟩, st')

/-- The field loop of `impl BinWrite for DataRecord` (src/parser.rs):
look each template field up in the record's value map (absence is
`MissingData` at the current position) and serialize it under the
template's declared field length. `pos` is the absolute stream position
where this record starts. -/
def writeFields (values : List (DataRecordKey × DataRecordValue)) (pos : Nat) :
    List ExpandedFieldSpecifier → Except BinError (List Nat)
  | [] => .ok []
  | f :: rest =>
    match mapGet values f.name with
    | none => .error (.custom pos (.MissingData f.name))
    | some v =>
      match dataRecordValueWrite f.field_length v with
      | .error e => .error e
      | .ok bs =>
        match writeFields values (pos + bs.length) rest with
        | .error e => .error e
        | .ok bss => .ok (bs ++ bss)

/-- `impl BinWrite for DataRecord` (src/parser.rs). -/
def dataRecordWrite (set_id : Nat) (store : TemplateStore) (rec : DataRecord)
    (pos : Nat) : Except BinError (List Nat) :=
  match getTemplate store set_id with
  | none => .error (.custom pos (.MissingTemplate set_id))
  | some t =>
    let field_specifiers := match t with
      | .template fs => fs
      | .optionsTemplate fs => fs
    writeFields rec.values pos field_specifiers

/-- The enum `Records` from src/parser.rs (the inner set-id of the `Data`
variant doubles as the template id). -/
inductive Records
  | template (trs : List TemplateRecord)
  | optionsTemplate (otrs : List OptionsTemplateRecord)
  | data (set_id : Nat) (data : List DataRecord)
deriving DecidableEq, Repr

/-- `Records::set_id` (src/parser.rs): the id written for each variant. -/
def Records.set_id : Records → Nat
  | .template _ => 2
  | .optionsTemplate _ => 3
  | .data set_id _ => set_id

/-- Modelled from the spec: `until_limit` lives in src/util.rs, which is
not part of the provided sources. Per the design, the inner record
sequence of a set is parsed by repeatedly decoding one record and
stopping exactly when the scope's byte budget is exhausted; a record that
would overrun the budget is a decode error. `fuel` only forces
termination in Lean: a parser that consumes no bytes (which would loop
forever in the real implementation) is reported as an error once fuel
runs out, and every caller supplies `limit + 1` fuel, enough for any
byte-consuming parser. -/
def untilLimitAux {α : Type} (p : RState → Except BinError (α × RState)) :
    Nat → Nat → RState → Except BinError (List α × RState)
  | _, 0, st => .ok ([], st)
  | 0, _ + 1, _ => .error (.assertFail "until_limit: parser makes no progress")
  | fuel + 1, limit + 1, st =>
    match p st with
    | .error e => .error e
    | .ok (x, st') =>
      if limit + 1 < st'.pos - st.pos then
        .error (.assertFail "until_limit: record overran the set length")
      else
        match untilLimitAux p fuel (limit + 1 - (st'.pos - st.pos)) st' with
        | .error e => .error e
        | .ok (xs, st'') => .ok (x :: xs, st'')

/-- Modelled from the spec: entry point of `until_limit` (src/util.rs). -/
def untilLimit {α : Type} (p : RState → Except BinError (α × RState))
    (limit : Nat) (st : RState) : Except BinError (List α × RState) :=
  untilLimitAux p (limit + 1) limit st

/-- Decoding `Records` (src/parser.rs): binrw tries the variants in
order, gated by their `pre_assert`s on the set id; reading a
Template/Options-Template set inserts the parsed records into the shared
template registry as a side effect (the `#[br(map = ...)]` closures);
reserved ids 0, 1 and 4-255 match no variant and are rejected. -/
def recordsRead (set_id length : Nat) (store : TemplateStore)
    (formatter : Formatter) (st : RState) :
    Except BinError (Records × TemplateStore × RState) :=
  if set_id = 2 then
    match untilLimit templateRecordRead length st with
    | .error e => .error e
    | .ok (trs, st') =>
      .ok (.template trs, insert_template_records store trs formatter, st')
  else if set_id = 3 then
    match untilLimit optionsTemplateRecordRead length st with
    | .error e => .error e
    | .ok (otrs, st') =>
      .ok (.optionsTemplate otrs,
        insert_options_template_records store otrs formatter, st')
  else if set_id > 255 then
    match untilLimit (dataRecordRead set_id store) length st with
    | .error e => .error e
    | .ok (ds, st') => .ok (.data set_id ds, store, st')
  else
    .error (.assertFail "Set IDs 0-1 and 4-255 are reserved")

/-- The struct `Set` from src/parser.rs (set id and length are derived,
not stored). -/
structure Set where
  records : Records
deriving DecidableEq, Repr

/-- Skip forward `n` bytes (a read-side seek; used for
`pad_size_to`). -/
def rSkip (n : Nat) (st : RState) : RState := ⟨st.buf.drop n, st.pos + n⟩

/-- Decoding a `Set` (src/parser.rs): 2-byte set id, 2-byte length with
the `length > 4` assertion, the records parsed against the budget
`length - 4`, and `pad_size_to = length - 4` skipping any unparsed
remainder of the declared span. -/
def setRead (formatter : Formatter) (store : TemplateStore) (st : RState) :
    Except BinError (Set × TemplateStore × RState) :=
  match readBE 2 st with
  | .error e => .error e
  | .ok (set_id, st) =>
    match readBE 2 st with
    | .error e => .error e
    | .ok (length, st) =>
      if length > 4 then
        let contentStart := st.pos
        match recordsRead set_id (length - 4) store formatter st with
        | .error e => .error e
        | .ok (records, store', st') =>
          .ok (⟨records⟩, store', rSkip (contentStart + (length - 4) - st'.pos) st')
      else
        .error (.assertFail "invalid set length")

/-- Reading a collection until end of input (binrw `until_eof`): parse
items until a parse fails with an end-of-file condition, which ends the
collection; any other error propagates. `fuel` only forces termination
in Lean; callers supply `remaining bytes + 1`, enough for any
byte-consuming parser. -/
def untilEofAux {α : Type} (p : TemplateStore → RState → Except BinError (α × TemplateStore × RState)) :
    Nat → TemplateStore → RState → Except BinError (List α × TemplateStore × RState)
  | 0, _, _ => .error (.assertFail "until_eof: parser makes no progress")
  | fuel + 1, store, st =>
    match p store st with
    | .error .eof => .ok ([], store, st)
    | .error e => .error e
    | .ok (x, store', st') =>
      match untilEofAux p fuel store' st' with
      | .error e => .error e
      | .ok (xs, store'', st'') => .ok (x :: xs, store'', st'')

/-- The struct `Message` from src/parser.rs (the 16-bit length field and
magic are not stored; they are wire-only). -/
structure Message where
  export_time : Nat
  sequence_number : Nat
  observation_domain_id : Nat
  sets : List Set
deriving DecidableEq, Repr

/-- Decoding a `Message` (src/parser.rs): the 2-byte magic must equal 10,
the 2-byte length field is read and discarded (`#[br(temp)]`), then the
three header words, then sets until end of input. Template sets mutate
the registry as they are parsed, and later sets observe those
mutations. -/
def messageRead (formatter : Formatter) (store : TemplateStore) (st : RState) :
    Except BinError (Message × TemplateStore × RState) :=
  let startPos := st.pos
  match readBE 2 st with
  | .error e => .error e
  | .ok (magic, st) =>
    if magic = 10 then
      match readBE 2 st with
      | .error e => .error e
      | .ok (_length, st) =>
        match readBE 4 st with
        | .error e => .error e
        | .ok (export_time, st) =>
          match readBE 4 st with
          | .error e => .error e
          | .ok (sequence_number, st) =>
            match readBE 4 st with
            | .error e => .error e
            | .ok (observation_domain_id, st) =>
              match untilEofAux (setRead formatter) (st.buf.length + 1) store st with
              | .error e => .error e
              | .ok (sets, store', st') =>
                .ok (⟨export_time, sequence_number, observation_domain_id, sets⟩,
                  store', st')
    else
      .error (.badMagic startPos)

/-- Write-side stream state: the buffer written so far and the cursor
(absolute position of the next write), as needed by the
seek-and-backpatch framing. -/
structure WState where
  buf : List Nat
  cur : Nat
deriving DecidableEq, Repr

/-- Overwrite the bytes of `buf` at absolute position `pos` with `bs`,
extending (zero-filling any gap) as a seekable `Cursor<Vec<u8>>` does. -/
def bufStore (buf : List Nat) (pos : Nat) (bs : List Nat) : List Nat :=
  let padded := buf ++ List.replicate (pos - buf.length) 0
  padded.take pos ++ bs ++ padded.drop (pos + bs.length)

/-- Write bytes at the current cursor. -/
def wWrite (bs : List Nat) (w : WState) : WState :=
  ⟨bufStore w.buf w.cur bs, w.cur + bs.length⟩

/-- Padding inserted by binrw `align_after = alignment`: zero bytes up to
the next multiple of the alignment. -/
def alignPad (alignment cur : Nat) : Nat :=
  if alignment = 0 then 0 else (alignment - cur % alignment) % alignment

/-- Encoding `Records` (src/parser.rs): concatenate the record bodies;
no registry insertion happens on the write path (the inserting
`#[br(map = ...)]` closures are read-only). `pos` is the absolute stream
position where the records start (used for error positions). -/
def recordsWrite (store : TemplateStore) (pos : Nat) :
    Records → Except BinError (List Nat)
  | .template trs =>
    trs.foldlM (fun acc tr => do
      let bs ← templateRecordWrite tr
      pure (acc ++ bs)) []
  | .optionsTemplate otrs =>
    otrs.foldlM (fun acc otr => do
      let bs ← optionsTemplateRecordWrite otr
      pure (acc ++ bs)) []
  | .data set_id ds =>
    ds.foldlM (fun acc d => do
      let bs ← dataRecordWrite set_id store d (pos + acc.length)
      pure (acc ++ bs)) []

/-- Modelled from the spec: the length backpatch of `Set` (src/parser.rs)
uses `stream_position` and `write_position_at` from src/util.rs, which is
not part of the provided sources. Per the design: the 16-bit length
field's placeholder records the field's own stream offset; after the
content (and alignment padding) is written, the true length
`content_end - (length_field_offset - 2)` is computed, the stream seeks
back to overwrite the placeholder, and the cursor is restored to the end
of the content. Both `try_calc`s fail when the value does not fit a
`u16`. -/
def setWrite (store : TemplateStore) (alignment : Nat) (s : Set) (w : WState) :
    Except BinError WState :=
  let w1 := wWrite (beBytes 2 s.records.set_id) w
  let lenPos := w1.cur
  if lenPos > 65535 then
    .error (.customStr lenPos "out of range integral type conversion attempted")
  else
    let w2 := wWrite (beBytes 2 lenPos) w1
    match recordsWrite store w2.cur s.records with
    | .error e => .error e
    | .ok content =>
      let w3 := wWrite content w2
      let w4 := wWrite (List.replicate (alignPad alignment w3.cur) 0) w3
      let v := w4.cur - (lenPos - 2)
      if v > 65535 then
        .error (.customStr w4.cur "out of range integral type conversion attempted")
      else
        .ok ⟨bufStore w4.buf lenPos (beBytes 2 v), w4.cur⟩

/-- Modelled from the spec: the length backpatch of `Message`
(src/parser.rs) likewise relies on src/util.rs. The 2-byte magic `10` is
written, the length placeholder records its own offset, the three header
words and all sets follow, and the total span
`content_end - 0` is patched into the length field, restoring the cursor
afterwards. -/
def messageWrite (store : TemplateStore) (alignment : Nat) (m : Message)
    (w : WState) : Except BinError WState :=
  let w1 := wWrite (beBytes 2 10) w
  let lenPos := w1.cur
  if lenPos > 65535 then
    .error (.customStr lenPos "out of range integral type conversion attempted")
  else
    let w2 := wWrite (beBytes 2 lenPos) w1
    let w3 := wWrite (beBytes 4 m.export_time) w2
    let w4 := wWrite (beBytes 4 m.sequence_number) w3
    let w5 := wWrite (beBytes 4 m.observation_domain_id) w4
    match m.sets.foldlM (fun w s => setWrite store alignment s w) w5 with
    | .error e => .error e
    | .ok w6 =>
      let v := w6.cur - 0
      if v > 65535 then
        .error (.customStr w6.cur "out of range integral type conversion attempted")
      else
        .ok ⟨bufStore w6.buf lenPos (beBytes 2 v), w6.cur⟩

/-- The 16-bit big-endian value stored at offset `i` of a buffer. -/
def readLenAt (buf : List Nat) (i : Nat) : Nat :=
  256 * buf.getD i 0 + buf.getD (i + 1) 0

section Helpers

theorem bind_ok {α β : Type} (x : Except BinError α) (f : α → Except BinError β)
    (b : β) : (x >>= f) = .ok b ↔ ∃ a, x = .ok a ∧ f a = .ok b := by
  cases x <;> simp [Bind.bind, Except.bind]

theorem beBytes_mod (k n : Nat) : beBytes k (n % 256 ^ k) = beBytes k n := by
  cases k with
  | zero => rfl
  | succ k =>
    have h1 : (n % 256 ^ (k + 1)) / 256 ^ k = n / 256 ^ k % 256 := by
      have : (256 : Nat) ^ (k + 1) = 256 ^ k * 256 := by ring
      rw [this, Nat.mod_mul_right_div_self]
    have h2 : (n % 256 ^ (k + 1)) % 256 ^ k = n % 256 ^ k := by
      apply Nat.mod_mod_of_dvd
      exact pow_dvd_pow 256 (Nat.le_succ k)
    have h3 : n / 256 ^ k % 256 % 256 = n / 256 ^ k % 256 := by omega
    simp only [beBytes, h1, h2, h3]

theorem u40WriteBytes_eq_beBytes (x : Nat) : u40WriteBytes x = beBytes 5 x := by
  simp only [u40WriteBytes, and_255_eq_mod, shiftRight_eq_div, beBytes]
  norm_num
  omega

theorem readBE_ok {k : Nat} {st st' : RState} {n : Nat}
    (h : readBE k st = .ok (n, st')) (hv : ValidBytes st.buf) :
    n < 256 ^ k ∧ beBytes k n = st.buf.take k ∧ k ≤ st.buf.length ∧
      st' = ⟨st.buf.drop k, st.pos + k⟩ := by
  unfold readBE readBytes at h
  by_cases hk : k ≤ st.buf.length
  · simp only [if_pos hk] at h
    obtain ⟨hval, hst⟩ : beVal (st.buf.take k) = n ∧
        (⟨st.buf.drop k, st.pos + k⟩ : RState) = st' := by
      cases h; exact ⟨rfl, rfl⟩
    have hvt : ValidBytes (st.buf.take k) := fun b hb =>
      hv b (List.take_subset k st.buf hb)
    have hlen : (st.buf.take k).length = k := by
      rw [List.length_take]; omega
    have hlt := beVal_lt (st.buf.take k) hvt
    rw [hlen, hval] at hlt
    have hbb := beBytes_beVal (st.buf.take k) hvt
    rw [hlen, hval] at hbb
    exact ⟨hlt, hbb, hk, hst.symm⟩
  · simp only [if_neg hk] at h
    exact absurd h (by simp)

theorem readBE_beBytes (k n : Nat) (hn : n < 256 ^ k) :
    readBE k ⟨beBytes k n, 0⟩ = .ok (n, ⟨[], (beBytes k n).length⟩) := by
  unfold readBE readBytes
  have hlen : (beBytes k n).length = k := beBytes_length k n
  rw [hlen]
  simp only [if_pos (Nat.le_refl k)]
  have ht : (beBytes k n).take k = beBytes k n := by
    apply List.take_of_length_le; omega
  have hd : (beBytes k n).drop k = [] := by
    apply List.drop_eq_nil_of_le; omega
  rw [ht, hd, beVal_beBytes k n hn]
  simp [hlen]

end Helpers

/-- C2: encoding a `U40` fails for every 64-bit input with a bit in
positions 40-63 set (in particular `0x10000000000`), succeeds for every
input at most `0xFFFFFFFFFF` emitting exactly the 5 big-endian bytes of
the value, and `0xFFFFFFFFFF` encodes as five `0xFF` bytes. -/
theorem c2_u40_encode :
    (∀ length x, x < 2 ^ 64 → 0xFFFFFFFFFF < x →
      dataRecordValueWrite length (.U40 x) =
        .error (.customStr 0 "Value too large for U40")) ∧
    (∀ length x, x ≤ 0xFFFFFFFFFF →
      dataRecordValueWrite length (.U40 x) = .ok (beBytes 5 x) ∧
        (beBytes 5 x).length = 5) ∧
    dataRecordValueWrite 5 (.U40 0xFFFFFFFFFF) = .ok [255, 255, 255, 255, 255] ∧
    dataRecordValueWrite 5 (.U40 0x10000000000) =
      .error (.customStr 0 "Value too large for U40") := by
  refine ⟨fun length x _ hbig => ?_, fun length x hle => ?_, by decide, by decide⟩
  · simp [dataRecordValueWrite, hbig]
  · constructor
    · simp only [dataRecordValueWrite, u40WriteBytes_eq_beBytes]
      rw [if_neg (by omega)]
    · exact beBytes_length 5 x

/-- Witness for C2 at the two boundary inputs named by the claim. -/
theorem c2_u40_encode_witness :
    dataRecordValueWrite 5 (.U40 0x10000000000) =
      .error (.customStr 0 "Value too large for U40") ∧
    dataRecordValueWrite 5 (.U40 0xFFFFFFFFFF) = .ok (beBytes 5 0xFFFFFFFFFF) :=
  ⟨c2_u40_encode.1 5 0x10000000000 (by norm_num) (by norm_num),
    (c2_u40_encode.2.1 5 0xFFFFFFFFFF (by norm_num)).1⟩

/-- C7: booleans encode as byte 1 for `true` and 2 for `false`, and
decode by comparing the byte with 1, so byte 1 decodes to `true` and any
other byte (including 0 and 2) decodes to `false` without error. -/
theorem c7_bool_codec :
    (∀ length, dataRecordValueWrite length (.Bool true) = .ok [1]) ∧
    (∀ length, dataRecordValueWrite length (.Bool false) = .ok [2]) ∧
    (∀ b rest pos, dataRecordValueRead .Bool 1 ⟨b :: rest, pos⟩ =
      .ok (.Bool (b == 1), ⟨rest, pos + 1⟩)) ∧
    (∀ rest pos, dataRecordValueRead .Bool 1 ⟨1 :: rest, pos⟩ =
      .ok (.Bool true, ⟨rest, pos + 1⟩)) ∧
    (∀ rest pos, dataRecordValueRead .Bool 1 ⟨0 :: rest, pos⟩ =
      .ok (.Bool false, ⟨rest, pos + 1⟩)) ∧
    (∀ rest pos, dataRecordValueRead .Bool 1 ⟨2 :: rest, pos⟩ =
      .ok (.Bool false, ⟨rest, pos + 1⟩)) :=
  ⟨fun _ => rfl, fun _ => rfl, fun _ _ _ => rfl, fun _ _ => rfl, fun _ _ => rfl,
    fun _ _ => rfl⟩

/-- C6: every `(type, length)` pair outside the supported decode table
fails with `InvalidFieldSpecLength` carrying exactly that type and length
at the position where it was detected (the start of the value, so none of
the value's bytes are consumed). -/
theorem c6_invalid_pair (ty : DataRecordType) (length : Nat) (st : RState)
    (h : supportedPair ty length = false) :
    dataRecordValueRead ty length st =
      .error (.custom st.pos (.InvalidFieldSpecLength ty length)) := by
  cases ty <;>
    simp only [supportedPair, Bool.or_eq_false_iff, decide_eq_false_iff_not] at h <;>
    simp [dataRecordValueRead, h] <;> tauto

/-- Witness for C6 at the pairs named by the claim,
`(UnsignedInt, 3)` and `(Bool, 2)`. -/
theorem c6_invalid_pair_witness :
    dataRecordValueRead .UnsignedInt 3 ⟨[1, 2, 3], 7⟩ =
      .error (.custom 7 (.InvalidFieldSpecLength .UnsignedInt 3)) ∧
    dataRecordValueRead .Bool 2 ⟨[1, 2], 7⟩ =
      .error (.custom 7 (.InvalidFieldSpecLength .Bool 2)) :=
  ⟨c6_invalid_pair .UnsignedInt 3 ⟨[1, 2, 3], 7⟩ (by decide),
    c6_invalid_pair .Bool 2 ⟨[1, 2], 7⟩ (by decide)⟩

/-- C3: variable-length decoding for `Bytes`/`String` fields uses the
inline length only under the sentinel declared length `0xFFFF` (one
length byte, extended to a 2-byte length iff that byte is 255), and any
other declared length directly; encoding emits the mirror prefix. A
sentinel-length String `hi` encodes as `[2, 104, 105]` and a 300-byte
payload as `255, 1, 44` followed by the payload, which decodes back. -/
theorem c3_variable_length :
    (∀ length st, length ≠ 65535 → length ≤ st.buf.length →
      dataRecordValueRead .Bytes length st =
        .ok (.Bytes (st.buf.take length), ⟨st.buf.drop length, st.pos + length⟩)) ∧
    (∀ c rest pos, c ≠ 255 → c ≤ rest.length →
      dataRecordValueRead .Bytes 65535 ⟨c :: rest, pos⟩ =
        .ok (.Bytes (rest.take c), ⟨rest.drop c, pos + 1 + c⟩)) ∧
    (∀ e1 e2 rest pos, 256 * e1 + e2 ≤ rest.length →
      dataRecordValueRead .Bytes 65535 ⟨255 :: e1 :: e2 :: rest, pos⟩ =
        .ok (.Bytes (rest.take (256 * e1 + e2)),
          ⟨rest.drop (256 * e1 + e2), pos + 3 + (256 * e1 + e2)⟩)) ∧
    (∀ payload, payload.length < 255 →
      dataRecordValueWrite 65535 (.Bytes payload) = .ok (payload.length :: payload)) ∧
    (∀ payload, 255 ≤ payload.length → payload.length ≤ 65535 →
      dataRecordValueWrite 65535 (.Bytes payload) =
        .ok (255 :: (beBytes 2 payload.length ++ payload))) ∧
    dataRecordValueWrite 65535 (.String [104, 105]) = .ok [2, 104, 105] ∧
    dataRecordValueRead .String 65535 ⟨[2, 104, 105], 0⟩ =
      .ok (.String [104, 105], ⟨[], 3⟩) ∧
    dataRecordValueWrite 65535 (.Bytes (List.replicate 300 7)) =
      .ok (255 :: 1 :: 44 :: List.replicate 300 7) ∧
    dataRecordValueRead .Bytes 65535 ⟨255 :: 1 :: 44 :: List.replicate 300 7, 0⟩ =
      .ok (.Bytes (List.replicate 300 7), ⟨[], 303⟩) := by
  refine ⟨fun length st h hle => ?_, fun c rest pos hc hle => ?_,
    fun e1 e2 rest pos hle => ?_, fun payload hlt => ?_,
    fun payload h255 h65535 => ?_, by decide, by decide, by decide, by decide⟩
  · simp [dataRecordValueRead, read_variable_length, readBytes, h, hle,
      Bind.bind, Except.bind, pure, Except.pure]
  · simp [dataRecordValueRead, read_variable_length, readByte, readBytes, hc, hle,
      Bind.bind, Except.bind, pure, Except.pure]
  · have hbe : beVal [e1, e2] = 256 * e1 + e2 := by simp [beVal]; ring
    simp [dataRecordValueRead, read_variable_length, readByte, readBE, readBytes,
      hbe, hle, Bind.bind, Except.bind, pure, Except.pure]
  · simp [dataRecordValueWrite, varLenPrefix, hlt,
      Bind.bind, Except.bind, pure, Except.pure]
  · simp [dataRecordValueWrite, varLenPrefix, Nat.not_lt_of_le h255, h65535,
      Bind.bind, Except.bind, pure, Except.pure]

/-- Witness for C3, instantiating the quantified parts at the concrete
inputs the claim names. -/
theorem c3_variable_length_witness :
    dataRecordValueRead .Bytes 4 ⟨[9, 8, 7, 6], 0⟩ =
      .ok (.Bytes [9, 8, 7, 6], ⟨[], 4⟩) ∧
    dataRecordValueRead .Bytes 65535 ⟨[2, 104, 105], 0⟩ =
      .ok (.Bytes [104, 105], ⟨[], 3⟩) ∧
    dataRecordValueRead .Bytes 65535 ⟨255 :: 1 :: 44 :: List.replicate 300 7, 0⟩ =
      .ok (.Bytes (List.replicate 300 7), ⟨[], 303⟩) ∧
    dataRecordValueWrite 65535 (.Bytes [104, 105]) = .ok [2, 104, 105] ∧
    dataRecordValueWrite 65535 (.Bytes (List.replicate 300 7)) =
      .ok (255 :: (beBytes 2 300 ++ List.replicate 300 7)) := by
  refine ⟨?_, ?_, ?_, ?_, ?_⟩
  · exact c3_variable_length.1 4 ⟨[9, 8, 7, 6], 0⟩ (by decide) (by decide)
  · exact c3_variable_length.2.1 2 [104, 105] 0 (by decide) (by decide)
  · have h := c3_variable_length.2.2.1 1 44 (List.replicate 300 7) 0
      (by simp)
    simpa using h
  · exact c3_variable_length.2.2.2.1 [104, 105] (by decide)
  · exact c3_variable_length.2.2.2.2.1 (List.replicate 300 7) (by simp) (by simp)

theorem readBE_append (k n : Nat) (rest : List Nat) (pos : Nat)
    (hn : n < 256 ^ k) :
    readBE k ⟨beBytes k n ++ rest, pos⟩ = .ok (n, ⟨rest, pos + k⟩) := by
  have hlen : (beBytes k n).length = k := beBytes_length k n
  have ht : (beBytes k n ++ rest).take k = beBytes k n := List.take_left' hlen
  have hd : (beBytes k n ++ rest).drop k = rest := List.drop_left' hlen
  have hk : k ≤ k + rest.length := by omega
  simp [readBE, readBytes, List.length_append, hlen, ht, hd, hk,
    beVal_beBytes k n hn]

theorem readBE_exact (k n pos : Nat) (hn : n < 256 ^ k) :
    readBE k ⟨beBytes k n, pos⟩ = .ok (n, ⟨[], pos + k⟩) := by
  have := readBE_append k n [] pos hn
  simpa using this

theorem and_32767_eq_mod (x : Nat) : x &&& 32767 = x % 32768 := by
  have := Nat.and_pow_two_sub_one_eq_mod x 15
  norm_num at this
  exact this

/-- C9: decoding a `FieldSpecifier` masks bit 15 off the wire identifier
(so the identifier is at most `0x7FFF`) and materializes the enterprise
number exactly when that bit was set; encode-then-decode is the identity
on specifiers whose identifier is below `0x8000` (with in-range fields),
while encoding an identifier with bit 15 set and no enterprise number
yields bytes whose decode disagrees with the original (here: it fails,
trying to read an absent enterprise number). -/
theorem c9_field_specifier :
    (∀ st fs st', fieldSpecifierRead st = .ok (fs, st') → ValidBytes st.buf →
      fs.information_element_identifier ≤ 0x7FFF ∧
        (fs.enterprise_number.isSome ↔ beVal (st.buf.take 2) >>> 15 = 1)) ∧
    (∀ fs : FieldSpecifier, fs.information_element_identifier < 0x8000 →
      fs.field_length < 65536 → (∀ e ∈ fs.enterprise_number, e < 2 ^ 32) →
      fieldSpecifierRead ⟨fieldSpecifierWrite fs, 0⟩ =
        .ok (fs, ⟨[], (fieldSpecifierWrite fs).length⟩)) ∧
    fieldSpecifierRead ⟨fieldSpecifierWrite ⟨0x8001, 4, none⟩, 0⟩ =
      .error .eof := by
  refine ⟨fun st fs st' h hv => ?_, fun fs hid hlen hent => ?_, by decide⟩
  · simp only [fieldSpecifierRead, bind_ok] at h
    obtain ⟨⟨raw, st1⟩, hraw, ⟨flen, st2⟩, hflen, h⟩ := h
    dsimp only at h hflen
    obtain ⟨hrawlt, hbb, _, _⟩ := readBE_ok hraw hv
    have hval : beVal (st.buf.take 2) = raw := by
      rw [← hbb, beVal_beBytes 2 raw hrawlt]
    have hmask : raw &&& 32767 ≤ 32767 := by
      rw [and_32767_eq_mod]
      omega
    by_cases hbit : raw >>> 15 = 1
    · rw [if_pos hbit, bind_ok] at h
      obtain ⟨⟨e, st4⟩, _, h⟩ := h
      simp only [Bind.bind, Except.bind, pure, Except.pure, Except.ok.injEq,
        Prod.mk.injEq] at h
      obtain ⟨hfs, hst⟩ := h
      subst hfs
      simp [hval, hbit, hmask]
    · rw [if_neg hbit] at h
      simp only [Bind.bind, Except.bind, pure, Except.pure, Except.ok.injEq,
        Prod.mk.injEq] at h
      obtain ⟨hfs, hst⟩ := h
      subst hfs
      simp [hval, hbit, hmask]
  · obtain ⟨ie, flen, ent⟩ := fs
    simp only at hid hlen
    cases ent with
    | none =>
      have hw : fieldSpecifierWrite ⟨ie, flen, none⟩ =
          beBytes 2 ie ++ beBytes 2 flen := by
        simp [fieldSpecifierWrite]
      have hie : ie < 256 ^ 2 := by norm_num; omega
      have hfl : flen < 256 ^ 2 := by norm_num; omega
      have h1 := readBE_append 2 ie (beBytes 2 flen) 0 hie
      have h2 := readBE_exact 2 flen 2 hfl
      have hbit : ie >>> 15 = 0 := by
        rw [shiftRight_eq_div, show (2 : Nat) ^ 15 = 32768 by norm_num]
        omega
      have hmask : ie &&& 32767 = ie := by
        rw [and_32767_eq_mod]
        omega
      rw [hw]
      simp [fieldSpecifierRead, h1, h2, hbit, hmask, beBytes_length,
        Bind.bind, Except.bind, pure, Except.pure]
    | some e =>
      have he : e < 2 ^ 32 := hent e rfl
      have hraw : ie ||| ((if (some e).isSome then 1 else 0) <<< 15) = 32768 + ie := by
        simp only [Option.isSome_some, if_pos]
        rw [Nat.lor_comm, show (1 : Nat) <<< 15 = 2 ^ 15 * 1 by decide,
          pow_mul_lor_eq_add 15 1 ie (by norm_num; omega)]
        norm_num
      have hw : fieldSpecifierWrite ⟨ie, flen, some e⟩ =
          beBytes 2 (32768 + ie) ++ (beBytes 2 flen ++ beBytes 4 e) := by
        simp only [fieldSpecifierWrite, hraw, List.append_assoc]
      have hie : 32768 + ie < 256 ^ 2 := by norm_num; omega
      have hfl : flen < 256 ^ 2 := by norm_num; omega
      have he4 : e < 256 ^ 4 := by norm_num; omega
      have h1 := readBE_append 2 (32768 + ie) (beBytes 2 flen ++ beBytes 4 e) 0 hie
      have h2 := readBE_append 2 flen (beBytes 4 e) 2 hfl
      have h3 := readBE_exact 4 e 4 he4
      have hbit : (32768 + ie) >>> 15 = 1 := by
        rw [shiftRight_eq_div, show (2 : Nat) ^ 15 = 32768 by norm_num]
        omega
      have hmask : (32768 + ie) &&& 32767 = ie := by
        rw [and_32767_eq_mod]
        omega
      rw [hw]
      simp [fieldSpecifierRead, h1, h2, h3, hbit, hmask, beBytes_length,
        Bind.bind, Except.bind, pure, Except.pure]

/-- Witness for C9 at concrete inputs: a decoded specifier with the
enterprise bit set, and round-trips with and without an enterprise
number. -/
theorem c9_field_specifier_witness :
    ((⟨7, 4, some 100⟩ : FieldSpecifier).information_element_identifier ≤ 0x7FFF ∧
      ((⟨7, 4, some 100⟩ : FieldSpecifier).enterprise_number.isSome ↔
        beVal (([128, 7, 0, 4, 0, 0, 0, 100] : List Nat).take 2) >>> 15 = 1)) ∧
    fieldSpecifierRead ⟨fieldSpecifierWrite ⟨7, 4, some 100⟩, 0⟩ =
      .ok (⟨7, 4, some 100⟩, ⟨[], (fieldSpecifierWrite ⟨7, 4, some 100⟩).length⟩) ∧
    fieldSpecifierRead ⟨fieldSpecifierWrite ⟨9, 2, none⟩, 0⟩ =
      .ok (⟨9, 2, none⟩, ⟨[], (fieldSpecifierWrite ⟨9, 2, none⟩).length⟩) := by
  refine ⟨?_, ?_, ?_⟩
  · exact c9_field_specifier.1 ⟨[128, 7, 0, 4, 0, 0, 0, 100], 0⟩ ⟨7, 4, some 100⟩
      ⟨[], 8⟩ (by decide) (by decide)
  · exact c9_field_specifier.2.1 ⟨7, 4, some 100⟩ (by decide) (by decide)
      (by intro e he; simp at he; omega)
  · exact c9_field_specifier.2.1 ⟨9, 2, none⟩ (by decide) (by decide)
      (by intro e he; simp at he)

theorem recordsRead_reserved (set_id length : Nat) (store : TemplateStore)
    (formatter : Formatter) (st : RState) (hle : set_id ≤ 255) (hne2 : set_id ≠ 2)
    (hne3 : set_id ≠ 3) :
    recordsRead set_id length store formatter st =
      .error (.assertFail "Set IDs 0-1 and 4-255 are reserved") := by
  have hgt : ¬ set_id > 255 := by omega
  simp [recordsRead, hne2, hne3, hgt]

/-- Counterexample to C4's encode-side clause: the reserved template id 5
is accepted by the encode path without any validation (the
`template_id > 255` assertion is `#[br(...)]`, read-only), producing the
wire bytes `[0, 5, 0, 0]`. -/
theorem c4_encode_not_rejected :
    templateRecordWrite ⟨5, []⟩ = .ok [0, 5, 0, 0] := by decide

/-- C4 as amended: reserved set ids (0, 1, 4-255) and reserved template
ids (0-255) are always rejected on the decode path: a successfully
decoded (options) template record always has `template_id > 255`,
decoding `Records` under a reserved set id always fails, and so does
decoding a whole `Set` whose set-id field holds a reserved id. The
encode path performs no such validation: encoding any template record
whose field list fits the 16-bit count succeeds, whatever its id. -/
theorem c4_reserved_id_rejection :
    (∀ st tr st', templateRecordRead st = .ok (tr, st') → 255 < tr.template_id) ∧
    (∀ st otr st', optionsTemplateRecordRead st = .ok (otr, st') →
      255 < otr.template_id) ∧
    (∀ set_id length store formatter st, set_id ≤ 255 → set_id ≠ 2 → set_id ≠ 3 →
      recordsRead set_id length store formatter st =
        .error (.assertFail "Set IDs 0-1 and 4-255 are reserved")) ∧
    (∀ formatter store b0 b1 rest pos, 256 * b0 + b1 ≤ 255 → 256 * b0 + b1 ≠ 2 →
      256 * b0 + b1 ≠ 3 →
      ∃ e, setRead formatter store ⟨b0 :: b1 :: rest, pos⟩ = .error e) ∧
    (∀ tr : TemplateRecord, tr.field_specifiers.length ≤ 65535 →
      ∃ bs, templateRecordWrite tr = .ok bs) := by
  refine ⟨fun st tr st' h => ?_, fun st otr st' h => ?_,
    fun set_id length store formatter st hle hne2 hne3 => ?_,
    fun formatter store b0 b1 rest pos hle hne2 hne3 => ?_, fun tr hlen => ?_⟩
  · simp only [templateRecordRead, bind_ok] at h
    obtain ⟨⟨tid, st1⟩, _, ⟨fc, st2⟩, _, ⟨fss, st3⟩, _, h⟩ := h
    dsimp only at h
    by_cases hgt : tid > 255
    · rw [if_pos hgt] at h
      simp only [pure, Except.pure, Except.ok.injEq, Prod.mk.injEq] at h
      rw [← h.1]
      exact hgt
    · rw [if_neg hgt] at h
      exact absurd h (by simp)
  · simp only [optionsTemplateRecordRead, bind_ok] at h
    obtain ⟨⟨tid, st1⟩, _, ⟨fc, st2⟩, _, ⟨sfc, st3⟩, _, ⟨fss, st4⟩, _, h⟩ := h
    dsimp only at h
    by_cases hgt : tid > 255
    · rw [if_pos hgt] at h
      simp only [pure, Except.pure, Except.ok.injEq, Prod.mk.injEq] at h
      rw [← h.1]
      exact hgt
    · rw [if_neg hgt] at h
      exact absurd h (by simp)
  · exact recordsRead_reserved set_id length store formatter st hle hne2 hne3
  · have hsid : readBE 2 ⟨b0 :: b1 :: rest, pos⟩ =
        .ok (beVal [b0, b1], ⟨rest, pos + 2⟩) := by
      unfold readBE readBytes
      rw [if_pos (show 2 ≤ (b0 :: b1 :: rest).length by simp)]
      rfl
    have hbe : beVal [b0, b1] = 256 * b0 + b1 := by
      simp [beVal]
      ring
    simp only [setRead, hsid, hbe]
    match hlenr : readBE 2 (⟨rest, pos + 2⟩ : RState) with
    | .error e => exact ⟨e, rfl⟩
    | .ok (length, st2) =>
      by_cases hlen4 : length > 4
      · refine ⟨.assertFail "Set IDs 0-1 and 4-255 are reserved", ?_⟩
        simp [hlen4, recordsRead_reserved (256 * b0 + b1) (length - 4) store
          formatter st2 hle hne2 hne3]
      · refine ⟨.assertFail "invalid set length", ?_⟩
        simp [hlen4]
  · rw [templateRecordWrite, if_pos hlen]
    exact ⟨_, rfl⟩

/-- Witness for the amended C4 at concrete inputs: template id 256 is
accepted on decode, set id 4 is rejected on decode (both as bare
`Records` and as a whole `Set`), and the reserved template id 5 is
accepted by encode. -/
theorem c4_reserved_id_rejection_witness :
    255 < (⟨256, []⟩ : TemplateRecord).template_id ∧
    255 < (⟨256, 0, []⟩ : OptionsTemplateRecord).template_id ∧
    recordsRead 4 0 [] (fun _ _ => none) ⟨[], 0⟩ =
      .error (.assertFail "Set IDs 0-1 and 4-255 are reserved") ∧
    (∃ e, setRead (fun _ _ => none) [] ⟨[0, 4, 0, 5, 9], 0⟩ = .error e) ∧
    (∃ bs, templateRecordWrite ⟨5, []⟩ = .ok bs) := by
  refine ⟨?_, ?_, ?_, ?_, ?_⟩
  · exact c4_reserved_id_rejection.1 ⟨[1, 0, 0, 0], 0⟩ ⟨256, []⟩ ⟨[], 4⟩ (by decide)
  · exact c4_reserved_id_rejection.2.1 ⟨[1, 0, 0, 0, 0, 0], 0⟩ ⟨256, 0, []⟩ ⟨[], 6⟩
      (by decide)
  · exact c4_reserved_id_rejection.2.2.1 4 0 [] (fun _ _ => none) ⟨[], 0⟩
      (by decide) (by decide) (by decide)
  · exact c4_reserved_id_rejection.2.2.2.1 (fun _ _ => none) [] 0 4 [0, 5, 9] 0
      (by decide) (by decide) (by decide)
  · exact c4_reserved_id_rejection.2.2.2.2 ⟨5, []⟩ (by decide)

/-- Key membership in a record's value map (the condition tested by
`mapInsert`). -/
def hasKey (m : List (DataRecordKey × DataRecordValue)) (k : DataRecordKey) : Bool :=
  m.any (fun p => p.1 = k)

theorem hasKey_mapInsert_self (m : List (DataRecordKey × DataRecordValue))
    (k : DataRecordKey) (v : DataRecordValue) :
    hasKey (mapInsert m k v) k = true := by
  unfold hasKey mapInsert
  by_cases h : m.any (fun p => p.1 = k)
  · rw [if_pos h]
    rcases List.any_eq_true.mp h with ⟨p, hp, hpk⟩
    apply List.any_eq_true.mpr
    refine ⟨(k, v), ?_, by simp⟩
    apply List.mem_map.mpr
    exact ⟨p, hp, by simp [of_decide_eq_true hpk]⟩
  · rw [if_neg h]
    apply List.any_eq_true.mpr
    exact ⟨(k, v), by simp, by simp⟩

theorem hasKey_mapInsert_mono (m : List (DataRecordKey × DataRecordValue))
    (k k' : DataRecordKey) (v : DataRecordValue) (h : hasKey m k' = true) :
    hasKey (mapInsert m k v) k' = true := by
  unfold hasKey mapInsert
  rcases List.any_eq_true.mp h with ⟨p, hp, hpk⟩
  by_cases hm : m.any (fun p => p.1 = k)
  · rw [if_pos hm]
    apply List.any_eq_true.mpr
    by_cases hpk2 : p.1 = k
    · refine ⟨(k, v), List.mem_map.mpr ⟨p, hp, by simp [hpk2]⟩, ?_⟩
      simp only [decide_eq_true_eq] at hpk ⊢
      rw [← hpk2, hpk]
    · refine ⟨p, List.mem_map.mpr ⟨p, hp, by simp [hpk2]⟩, hpk⟩
  · rw [if_neg hm]
    apply List.any_eq_true.mpr
    exact ⟨p, List.mem_append_left _ hp, hpk⟩

theorem mapInsert_length_of_hasKey (m : List (DataRecordKey × DataRecordValue))
    (k : DataRecordKey) (v : DataRecordValue) (h : hasKey m k = true) :
    (mapInsert m k v).length = m.length := by
  unfold hasKey at h
  unfold mapInsert
  rw [if_pos h, List.length_map]

theorem mapInsert_length_le (m : List (DataRecordKey × DataRecordValue))
    (k : DataRecordKey) (v : DataRecordValue) :
    (mapInsert m k v).length ≤ m.length + 1 := by
  unfold mapInsert
  by_cases h : m.any (fun p => p.1 = k)
  · rw [if_pos h, List.length_map]
    omega
  · rw [if_neg h, List.length_append]
    simp

theorem readFields_length_le (fs : List ExpandedFieldSpecifier)
    (acc : List (DataRecordKey × DataRecordValue)) (st : RState)
    (vals : List (DataRecordKey × DataRecordValue)) (st' : RState)
    (h : readFields acc st fs = .ok (vals, st')) :
    vals.length ≤ acc.length + fs.length := by
  induction fs generalizing acc st with
  | nil =>
    simp only [readFields, Except.ok.injEq, Prod.mk.injEq] at h
    rw [← h.1]
    simp
  | cons f rest ih =>
    simp only [readFields] at h
    cases hv : dataRecordValueRead f.ty f.field_length st with
    | error e => rw [hv] at h; exact absurd h (by simp)
    | ok p =>
      rw [hv] at h
      obtain ⟨v, st1⟩ := p
      have := ih (mapInsert acc f.name v) st1 h
      have hle := mapInsert_length_le acc f.name v
      simp only [List.length_cons]
      omega

theorem readFields_hasKey_mono (fs : List ExpandedFieldSpecifier)
    (acc : List (DataRecordKey × DataRecordValue)) (st : RState)
    (vals : List (DataRecordKey × DataRecordValue)) (st' : RState)
    (k : DataRecordKey) (h : readFields acc st fs = .ok (vals, st'))
    (hk : hasKey acc k = true) : hasKey vals k = true := by
  induction fs generalizing acc st with
  | nil =>
    simp only [readFields, Except.ok.injEq, Prod.mk.injEq] at h
    rw [← h.1]
    exact hk
  | cons f rest ih =>
    simp only [readFields] at h
    cases hv : dataRecordValueRead f.ty f.field_length st with
    | error e => rw [hv] at h; exact absurd h (by simp)
    | ok p =>
      rw [hv] at h
      obtain ⟨v, st1⟩ := p
      exact ih (mapInsert acc f.name v) st1 h
        (hasKey_mapInsert_mono acc f.name k v hk)

theorem readFields_dup (fs : List ExpandedFieldSpecifier)
    (acc : List (DataRecordKey × DataRecordValue)) (st : RState)
    (vals : List (DataRecordKey × DataRecordValue)) (st' : RState)
    (h : readFields acc st fs = .ok (vals, st'))
    (hdup : ∃ f ∈ fs, hasKey acc f.name = true) :
    vals.length + 1 ≤ acc.length + fs.length := by
  induction fs generalizing acc st with
  | nil =>
    obtain ⟨f, hf, _⟩ := hdup
    exact absurd hf (by simp)
  | cons f rest ih =>
    simp only [readFields] at h
    cases hv : dataRecordValueRead f.ty f.field_length st with
    | error e => rw [hv] at h; exact absurd h (by simp)
    | ok p =>
      rw [hv] at h
      obtain ⟨v, st1⟩ := p
      obtain ⟨g, hg, hgk⟩ := hdup
      rcases List.mem_cons.mp hg with hgf | hgrest
      · subst hgf
        have hsame := mapInsert_length_of_hasKey acc g.name v hgk
        have := readFields_length_le rest (mapInsert acc g.name v) st1 vals st' h
        simp only [List.length_cons]
        omega
      · have := ih (mapInsert acc f.name v) st1 h
          ⟨g, hgrest, hasKey_mapInsert_mono acc f.name g.name v hgk⟩
        have hle := mapInsert_length_le acc f.name v
        simp only [List.length_cons]
        omega

theorem readFields_append (l1 l2 : List ExpandedFieldSpecifier)
    (acc : List (DataRecordKey × DataRecordValue)) (st : RState) :
    readFields acc st (l1 ++ l2) =
      match readFields acc st l1 with
      | .error e => .error e
      | .ok (a, s) => readFields a s l2 := by
  induction l1 generalizing acc st with
  | nil => rfl
  | cons f rest ih =>
    show readFields acc st (f :: (rest ++ l2)) = _
    simp only [readFields]
    cases hv : dataRecordValueRead f.ty f.field_length st with
    | error e => rfl
    | ok p =>
      obtain ⟨v, st1⟩ := p
      exact ih (mapInsert acc f.name v) st1

/-- C10: `DataRecord` decoding inserts values keyed by each field's
resolved name in template order; with two specifiers resolving to the
same key the later value silently overwrites the earlier one, the record
holds fewer entries than the template has fields, and the bytes of both
fields are still consumed from the stream. -/
theorem c10_duplicate_keys :
    (∀ set_id store st rec st' l1 l2 l3
        (f1 f2 : ExpandedFieldSpecifier),
      getTemplate store set_id =
        some (.template (l1 ++ (f1 :: (l2 ++ (f2 :: l3))))) →
      f1.name = f2.name →
      dataRecordRead set_id store st = .ok (rec, st') →
      rec.values.length < (l1 ++ (f1 :: (l2 ++ (f2 :: l3)))).length) ∧
    (∀ set_id store st (f1 f2 : ExpandedFieldSpecifier) v1 v2 st1 st2,
      getTemplate store set_id = some (.template [f1, f2]) →
      f1.name = f2.name →
      dataRecordValueRead f1.ty f1.field_length st = .ok (v1, st1) →
      dataRecordValueRead f2.ty f2.field_length st1 = .ok (v2, st2) →
      dataRecordRead set_id store st = .ok (⟨[(f2.name, v2)]⟩, st2)) := by
  constructor
  · intro set_id store st rec st' l1 l2 l3 f1 f2 hget hname h
    rw [dataRecordRead, hget] at h
    simp only at h
    cases hrf : readFields [] st (l1 ++ (f1 :: (l2 ++ (f2 :: l3)))) with
    | error e => rw [hrf] at h; exact absurd h (by simp)
    | ok p =>
      rw [hrf] at h
      obtain ⟨vals, stv⟩ := p
      have hrec : rec.values = vals := by
        simp only [Except.ok.injEq, Prod.mk.injEq] at h
        rw [← h.1]
      rw [readFields_append l1 (f1 :: (l2 ++ (f2 :: l3))) [] st] at hrf
      cases h1 : readFields [] st l1 with
      | error e => rw [h1] at hrf; exact absurd hrf (by simp)
      | ok q =>
        rw [h1] at hrf
        obtain ⟨acc1, sta⟩ := q
        have hacclen := readFields_length_le l1 [] st acc1 sta h1
        simp only [readFields] at hrf
        cases h2 : dataRecordValueRead f1.ty f1.field_length sta with
        | error e => rw [h2] at hrf; exact absurd hrf (by simp)
        | ok r =>
          rw [h2] at hrf
          obtain ⟨v1, stb⟩ := r
          have hkey : hasKey (mapInsert acc1 f1.name v1) f2.name = true := by
            rw [← hname]
            exact hasKey_mapInsert_self acc1 f1.name v1
          have hdup := readFields_dup (l2 ++ (f2 :: l3))
            (mapInsert acc1 f1.name v1) stb vals stv hrf
            ⟨f2, by simp, hkey⟩
          have hle := mapInsert_length_le acc1 f1.name v1
          rw [hrec]
          simp only [List.length_append, List.length_cons, List.length_nil] at *
          omega
  · intro set_id store st f1 f2 v1 v2 st1 st2 hget hname h1 h2
    rw [dataRecordRead, hget]
    simp only
    have hrf : readFields [] st [f1, f2] = .ok ([(f2.name, v2)], st2) := by
      simp only [readFields, h1, h2]
      have hins1 : mapInsert [] f1.name v1 = [(f1.name, v1)] := by
        simp [mapInsert]
      have hins2 : mapInsert [(f1.name, v1)] f2.name v2 = [(f2.name, v2)] := by
        simp [mapInsert, ← hname]
      rw [hins1, hins2]
    rw [hrf]

/-- Witness for C10: a two-field template whose fields both resolve to
the key `f`; decoding the bytes `[10, 20]` consumes both bytes and yields
the single entry `f = U8 20`. -/
theorem c10_duplicate_keys_witness :
    (⟨[(.Str "f", .U8 20)]⟩ : DataRecord).values.length <
      ([] ++ ((⟨.Str "f", .UnsignedInt, none, 1, 1⟩ : ExpandedFieldSpecifier) ::
        ([] ++ ((⟨.Str "f", .UnsignedInt, none, 2, 1⟩ : ExpandedFieldSpecifier) ::
        [])))).length ∧
    dataRecordRead 256
      [(256, .template [⟨.Str "f", .UnsignedInt, none, 1, 1⟩,
        ⟨.Str "f", .UnsignedInt, none, 2, 1⟩])] ⟨[10, 20], 0⟩ =
      .ok (⟨[(.Str "f", .U8 20)]⟩, ⟨[], 2⟩) := by
  constructor
  · exact c10_duplicate_keys.1 256
      [(256, .template [⟨.Str "f", .UnsignedInt, none, 1, 1⟩,
        ⟨.Str "f", .UnsignedInt, none, 2, 1⟩])]
      ⟨[10, 20], 0⟩ ⟨[(.Str "f", .U8 20)]⟩ ⟨[], 2⟩ [] [] []
      ⟨.Str "f", .UnsignedInt, none, 1, 1⟩ ⟨.Str "f", .UnsignedInt, none, 2, 1⟩
      (by decide) (by decide) (by decide)
  · exact c10_duplicate_keys.2 256
      [(256, .template [⟨.Str "f", .UnsignedInt, none, 1, 1⟩,
        ⟨.Str "f", .UnsignedInt, none, 2, 1⟩])]
      ⟨[10, 20], 0⟩ ⟨.Str "f", .UnsignedInt, none, 1, 1⟩
      ⟨.Str "f", .UnsignedInt, none, 2, 1⟩ (.U8 10) (.U8 20) ⟨[20], 1⟩ ⟨[], 2⟩
      (by decide) (by decide) (by decide) (by decide)

/-- A concrete formatter resolving element id 1 (no enterprise) to the
key `f` with the unsigned-integer type. -/
def fmtC5 : Formatter := fun ent id =>
  if ent = 0 ∧ id = 1 then some ("f", .UnsignedInt) else none

/-- A two-Set Message: header, then a Template Set (set id 2) defining
template 256 with one `(element 1, length 1)` field, then a Data Set
(set id 256) holding the single byte 42. -/
def msgTemplateFirst : List Nat :=
  [0, 10, 0, 33, 0, 0, 0, 1, 0, 0, 0, 2, 0, 0, 0, 3,
   0, 2, 0, 12, 1, 0, 0, 1, 0, 1, 0, 1,
   1, 0, 0, 5, 42]

/-- The same two Sets with the Data Set first. -/
def msgDataFirst : List Nat :=
  [0, 10, 0, 33, 0, 0, 0, 1, 0, 0, 0, 2, 0, 0, 0, 3,
   1, 0, 0, 5, 42,
   0, 2, 0, 12, 1, 0, 0, 1, 0, 1, 0, 1]

/-- C5: decoding a Data record whose set id has no registry entry fails
with `MissingTemplate` carrying that id at the current position; after a
template is inserted under that id the same bytes decode successfully;
and in a two-Set Message the Data Set decodes iff the Template Set
defining its id precedes it. -/
theorem c5_template_gating :
    (∀ set_id store st, getTemplate store set_id = none →
      dataRecordRead set_id store st =
        .error (.custom st.pos (.MissingTemplate set_id))) ∧
    dataRecordRead 256 [] ⟨[42], 0⟩ = .error (.custom 0 (.MissingTemplate 256)) ∧
    dataRecordRead 256
      (insertTemplate [] 256 (.template [⟨.Str "f", .UnsignedInt, none, 1, 1⟩]))
      ⟨[42], 0⟩ = .ok (⟨[(.Str "f", .U8 42)]⟩, ⟨[], 1⟩) ∧
    messageRead fmtC5 [] ⟨msgTemplateFirst, 0⟩ =
      .ok (⟨1, 2, 3,
        [⟨.template [⟨256, [⟨1, 1, none⟩]⟩]⟩,
         ⟨.data 256 [⟨[(.Str "f", .U8 42)]⟩]⟩]⟩,
        [(256, .template [⟨.Str "f", .UnsignedInt, none, 1, 1⟩])], ⟨[], 33⟩) ∧
    messageRead fmtC5 [] ⟨msgDataFirst, 0⟩ =
      .error (.custom 20 (.MissingTemplate 256)) := by
  refine ⟨fun set_id store st h => ?_, by decide, by decide, by decide, by decide⟩
  simp [dataRecordRead, h]

/-- Witness for C5's quantified clause at a concrete absent id. -/
theorem c5_template_gating_witness :
    dataRecordRead 999 [] ⟨[1, 2, 3], 5⟩ =
      .error (.custom 5 (.MissingTemplate 999)) :=
  c5_template_gating.1 999 [] ⟨[1, 2, 3], 5⟩ (by decide)

section RoundtripHelpers

theorem readByte_ok {st : RState} {b : Nat} {st' : RState}
    (h : readByte st = .ok (b, st')) :
    st.buf = b :: st'.buf ∧ st' = ⟨st.buf.tail, st.pos + 1⟩ := by
  unfold readByte at h
  cases hbuf : st.buf with
  | nil => rw [hbuf] at h; exact absurd h (by simp)
  | cons c rest =>
    rw [hbuf] at h
    simp only [Except.ok.injEq, Prod.mk.injEq] at h
    obtain ⟨hc, hst⟩ := h
    subst hc
    rw [← hst]
    simp

theorem readBytes_ok {k : Nat} {st : RState} {bs : List Nat} {st' : RState}
    (h : readBytes k st = .ok (bs, st')) :
    bs = st.buf.take k ∧ bs.length = k ∧ k ≤ st.buf.length ∧
      st' = ⟨st.buf.drop k, st.pos + k⟩ := by
  unfold readBytes at h
  by_cases hk : k ≤ st.buf.length
  · rw [if_pos hk] at h
    simp only [Except.ok.injEq, Prod.mk.injEq] at h
    refine ⟨h.1.symm, ?_, hk, h.2.symm⟩
    rw [← h.1, List.length_take]
    omega
  · rw [if_neg hk] at h
    exact absurd h (by simp)

theorem readBytes_exact (k : Nat) (bs : List Nat) (pos : Nat) (hk : bs.length = k) :
    readBytes k ⟨bs, pos⟩ = .ok (bs, ⟨[], pos + k⟩) := by
  subst hk
  simp [readBytes, List.take_length, List.drop_length]

theorem c1_fixed (k : Nat) (st st' : RState) (n : Nat) (hv : ValidBytes st.buf)
    (h : readBE k st = .ok (n, st')) :
    readBE k ⟨beBytes k n, 0⟩ = .ok (n, ⟨[], (beBytes k n).length⟩) := by
  obtain ⟨hn, _, _, _⟩ := readBE_ok h hv
  have := readBE_exact k n 0 hn
  simpa [beBytes_length] using this

theorem pow256_eq (k : Nat) : (256 : Nat) ^ k = 2 ^ (8 * k) := by
  rw [show (256 : Nat) = 2 ^ 8 by norm_num, ← pow_mul]

theorem signed_roundtrip (k n : Nat) (hn : n < 256 ^ k) :
    beBytesOfInt k (signedOfBE k n) = beBytes k n := by
  have hn2 : (n : Int) < (2 : Int) ^ (8 * k) := by
    have h1 : n < 2 ^ (8 * k) := by rw [← pow256_eq]; exact hn
    exact_mod_cast h1
  have hge : (0 : Int) ≤ (n : Int) := Int.natCast_nonneg n
  unfold beBytesOfInt signedOfBE
  by_cases hlt : n < 2 ^ (8 * k - 1)
  · rw [if_pos hlt, Int.emod_eq_of_lt hge hn2, Int.toNat_natCast]
  · rw [if_neg hlt]
    have hsub : ((n : Int) - 2 ^ (8 * k)) % 2 ^ (8 * k) = (n : Int) % 2 ^ (8 * k) := by
      rw [sub_eq_add_neg, show -((2 : Int) ^ (8 * k)) = 2 ^ (8 * k) * (-1) by ring,
        Int.add_mul_emod_self_left]
    rw [hsub, Int.emod_eq_of_lt hge hn2, Int.toNat_natCast]

theorem asm_bytes_eq (b0 b1 b2 b3 b4 : Nat) (h1 : b1 < 256)
    (h2 : b2 < 256) (h3 : b3 < 256) (h4 : b4 < 256) :
    (b0 <<< 32) ||| (b1 <<< 24) ||| (b2 <<< 16) ||| (b3 <<< 8) ||| b4 =
      beVal [b0, b1, b2, b3, b4] := by
  rw [Nat.lor_assoc, Nat.lor_assoc, Nat.lor_assoc]
  rw [shiftLeft_lor_eq_add b3 b4 8 (by norm_num; omega)]
  rw [shiftLeft_lor_eq_add b2 (b3 * 2 ^ 8 + b4) 16 (by norm_num; omega)]
  rw [shiftLeft_lor_eq_add b1 (b2 * 2 ^ 16 + (b3 * 2 ^ 8 + b4)) 24
    (by norm_num; omega)]
  rw [shiftLeft_lor_eq_add b0 (b1 * 2 ^ 24 + (b2 * 2 ^ 16 + (b3 * 2 ^ 8 + b4))) 32
    (by norm_num; omega)]
  simp only [beVal, List.length_cons, List.length_nil]
  norm_num

theorem read_u40_ok {st st' : RState} {x : Nat} (hv : ValidBytes st.buf)
    (h : read_u40 st = .ok (x, st')) :
    x < 256 ^ 5 ∧ read_u40 ⟨beBytes 5 x, 0⟩ = .ok (x, ⟨[], (beBytes 5 x).length⟩) := by
  simp only [read_u40, bind_ok] at h
  obtain ⟨⟨b0, s0⟩, h0, ⟨b1, s1⟩, h1, ⟨b2, s2⟩, h2, ⟨b3, s3⟩, h3, ⟨b4, s4⟩, h4, h⟩ := h
  simp only [pure, Except.pure, Except.ok.injEq, Prod.mk.injEq] at h
  obtain ⟨hx, hst⟩ := h
  obtain ⟨hbuf0, _⟩ := readByte_ok h0
  obtain ⟨hbuf1, _⟩ := readByte_ok h1
  obtain ⟨hbuf2, _⟩ := readByte_ok h2
  obtain ⟨hbuf3, _⟩ := readByte_ok h3
  obtain ⟨hbuf4, _⟩ := readByte_ok h4
  have hb0 : b0 < 256 := hv b0 (by rw [hbuf0]; simp)
  have hb1 : b1 < 256 := hv b1 (by rw [hbuf0, hbuf1]; simp)
  have hb2 : b2 < 256 := hv b2 (by rw [hbuf0, hbuf1, hbuf2]; simp)
  have hb3 : b3 < 256 := hv b3 (by rw [hbuf0, hbuf1, hbuf2, hbuf3]; simp)
  have hb4 : b4 < 256 := hv b4 (by rw [hbuf0, hbuf1, hbuf2, hbuf3, hbuf4]; simp)
  have hvall : ValidBytes [b0, b1, b2, b3, b4] := by
    intro b hb
    simp only [List.mem_cons, List.not_mem_nil, or_false] at hb
    rcases hb with rfl | rfl | rfl | rfl | rfl <;> assumption
  have hasm := asm_bytes_eq b0 b1 b2 b3 b4 hb1 hb2 hb3 hb4
  have hxval : x = beVal [b0, b1, b2, b3, b4] := by rw [← hx, hasm]
  have hxlt : x < 256 ^ 5 := by
    rw [hxval]
    have h5 := beVal_lt [b0, b1, b2, b3, b4] hvall
    rw [show ([b0, b1, b2, b3, b4] : List Nat).length = 5 from rfl] at h5
    exact h5
  refine ⟨hxlt, ?_⟩
  have hbb : beBytes 5 x = [b0, b1, b2, b3, b4] := by
    rw [hxval]
    have h5 := beBytes_beVal [b0, b1, b2, b3, b4] hvall
    rw [show ([b0, b1, b2, b3, b4] : List Nat).length = 5 from rfl] at h5
    exact h5
  rw [hbb, hxval, ← hasm]
  simp [read_u40, readByte, Bind.bind, Except.bind, pure, Except.pure]

theorem read_variable_length_ok (length : Nat) (st : RState) (payload : List Nat)
    (st' : RState) (hv : ValidBytes st.buf)
    (h : read_variable_length length st = .ok (payload, st')) :
    (length ≠ 65535 ∧ payload.length = length) ∨
      (length = 65535 ∧ payload.length ≤ 65535) := by
  by_cases hs : length = 65535
  · right
    refine ⟨hs, ?_⟩
    subst hs
    rw [read_variable_length, if_pos rfl] at h
    cases hrb : readByte st with
    | error e => rw [hrb] at h; exact absurd h (by simp)
    | ok p =>
      obtain ⟨c, st1⟩ := p
      simp only [hrb] at h
      obtain ⟨hbufc, hst1⟩ := readByte_ok hrb
      have hclt : c < 256 := hv c (by rw [hbufc]; simp)
      have hv1 : ValidBytes st1.buf := by
        intro y hy
        apply hv
        rw [hbufc]
        exact List.mem_cons_of_mem c hy
      by_cases h255 : c = 255
      · rw [if_pos h255] at h
        cases hext : readBE 2 st1 with
        | error e => simp only [hext] at h; exact absurd h (by simp)
        | ok q =>
          obtain ⟨ext, st2⟩ := q
          simp only [hext] at h
          obtain ⟨hextlt, _, _, _⟩ := readBE_ok hext hv1
          obtain ⟨_, hplen, _, _⟩ := readBytes_ok h
          have : (256 : Nat) ^ 2 = 65536 := by norm_num
          omega
      · rw [if_neg h255] at h
        obtain ⟨_, hplen, _, _⟩ := readBytes_ok h
        omega
  · left
    refine ⟨hs, ?_⟩
    rw [read_variable_length, if_neg hs] at h
    obtain ⟨_, hplen, _, _⟩ := readBytes_ok h
    exact hplen

theorem varlen_roundtrip (payload : List Nat) (hle : payload.length ≤ 65535) :
    ∃ pre, varLenPrefix 65535 payload.length = .ok pre ∧
      read_variable_length 65535 ⟨pre ++ payload, 0⟩ =
        .ok (payload, ⟨[], (pre ++ payload).length⟩) := by
  by_cases hlt : payload.length < 255
  · refine ⟨[payload.length], by simp [varLenPrefix, hlt], ?_⟩
    rw [read_variable_length, if_pos rfl]
    have h255 : payload.length ≠ 255 := by omega
    have hrb : readByte ⟨[payload.length] ++ payload, 0⟩ =
        .ok (payload.length, ⟨payload, 1⟩) := rfl
    simp only [hrb]
    simp [h255, readBytes_exact payload.length payload 1 rfl]
    omega
  · refine ⟨255 :: beBytes 2 payload.length, by simp [varLenPrefix, hlt, hle], ?_⟩
    rw [read_variable_length, if_pos rfl]
    have hplt : payload.length < 256 ^ 2 := by norm_num; omega
    have hrb : readByte ⟨(255 :: beBytes 2 payload.length) ++ payload, 0⟩ =
        .ok (255, ⟨beBytes 2 payload.length ++ payload, 1⟩) := rfl
    simp only [hrb]
    simp [readBE_append 2 payload.length payload 1 hplt,
      readBytes_exact payload.length payload 3 rfl, beBytes_length]
    omega

end RoundtripHelpers

/-- C1: whenever a `DataRecordValue` is producible by decoding under a
template-declared `(type, length)` pair, encoding it back under that pair
succeeds and re-decoding the produced bytes yields the same value,
consuming exactly the produced bytes. The boundary integers 0 and
`0xFFFFFFFFFF` of the 40-bit type are covered by the witness. -/
theorem c1_value_roundtrip (ty : DataRecordType) (length : Nat) (st st' : RState)
    (v : DataRecordValue) (hv : ValidBytes st.buf)
    (h : dataRecordValueRead ty length st = .ok (v, st')) :
    ∃ bs, dataRecordValueWrite length v = .ok bs ∧
      dataRecordValueRead ty length ⟨bs, 0⟩ = .ok (v, ⟨[], bs.length⟩) := by
  cases ty with
  | UnsignedInt =>
    simp only [dataRecordValueRead] at h
    by_cases h1 : length = 1
    · subst h1
      rw [if_pos rfl, bind_ok] at h
      obtain ⟨⟨b, st1⟩, hb, h⟩ := h
      simp only [pure, Except.pure, Except.ok.injEq, Prod.mk.injEq] at h
      obtain ⟨hveq, _⟩ := h
      subst hveq
      exact ⟨[b], rfl,
        by simp [dataRecordValueRead, readByte, Bind.bind, Except.bind, pure,
          Except.pure]⟩
    · rw [if_neg h1] at h
      by_cases h2 : length = 2
      · subst h2
        rw [if_pos rfl, bind_ok] at h
        obtain ⟨⟨n, st1⟩, hn, h⟩ := h
        simp only [pure, Except.pure, Except.ok.injEq, Prod.mk.injEq] at h
        obtain ⟨hveq, _⟩ := h
        subst hveq
        exact ⟨beBytes 2 n, rfl,
          by simp [dataRecordValueRead, c1_fixed 2 st st1 n hv hn, Bind.bind,
            Except.bind, pure, Except.pure]⟩
      · rw [if_neg h2] at h
        by_cases h4 : length = 4
        · subst h4
          rw [if_pos rfl, bind_ok] at h
          obtain ⟨⟨n, st1⟩, hn, h⟩ := h
          simp only [pure, Except.pure, Except.ok.injEq, Prod.mk.injEq] at h
          obtain ⟨hveq, _⟩ := h
          subst hveq
          exact ⟨beBytes 4 n, rfl,
            by simp [dataRecordValueRead, c1_fixed 4 st st1 n hv hn, Bind.bind,
              Except.bind, pure, Except.pure]⟩
        · rw [if_neg h4] at h
          by_cases h5 : length = 5
          · subst h5
            rw [if_pos rfl, bind_ok] at h
            obtain ⟨⟨x, st1⟩, hx, h⟩ := h
            simp only [pure, Except.pure, Except.ok.injEq, Prod.mk.injEq] at h
            obtain ⟨hveq, _⟩ := h
            subst hveq
            obtain ⟨hxlt, hre⟩ := read_u40_ok hv hx
            have hguard : ¬ x > 0xFFFFFFFFFF := by
              have : (256 : Nat) ^ 5 = 1099511627776 := by norm_num
              omega
            refine ⟨beBytes 5 x, ?_, ?_⟩
            · simp [dataRecordValueWrite, u40WriteBytes_eq_beBytes, hguard]
            · simp [dataRecordValueRead, hre, Bind.bind, Except.bind, pure,
                Except.pure]
          · rw [if_neg h5] at h
            by_cases h8 : length = 8
            · subst h8
              rw [if_pos rfl, bind_ok] at h
              obtain ⟨⟨n, st1⟩, hn, h⟩ := h
              simp only [pure, Except.pure, Except.ok.injEq, Prod.mk.injEq] at h
              obtain ⟨hveq, _⟩ := h
              subst hveq
              exact ⟨beBytes 8 n, rfl,
                by simp [dataRecordValueRead, c1_fixed 8 st st1 n hv hn,
                  Bind.bind, Except.bind, pure, Except.pure]⟩
            · rw [if_neg h8] at h
              exact absurd h (by simp)
  | SignedInt =>
    simp only [dataRecordValueRead] at h
    by_cases h1 : length = 1
    · subst h1
      rw [if_pos rfl, bind_ok] at h
      obtain ⟨⟨n, st1⟩, hn, h⟩ := h
      simp only [pure, Except.pure, Except.ok.injEq, Prod.mk.injEq] at h
      obtain ⟨hveq, _⟩ := h
      subst hveq
      obtain ⟨hn256, _, _, _⟩ := readBE_ok hn hv
      exact ⟨beBytes 1 n,
        by simp [dataRecordValueWrite, signed_roundtrip 1 n hn256],
        by simp [dataRecordValueRead, c1_fixed 1 st st1 n hv hn, Bind.bind,
          Except.bind, pure, Except.pure]⟩
    · rw [if_neg h1] at h
      by_cases h2 : length = 2
      · subst h2
        rw [if_pos rfl, bind_ok] at h
        obtain ⟨⟨n, st1⟩, hn, h⟩ := h
        simp only [pure, Except.pure, Except.ok.injEq, Prod.mk.injEq] at h
        obtain ⟨hveq, _⟩ := h
        subst hveq
        obtain ⟨hn256, _, _, _⟩ := readBE_ok hn hv
        exact ⟨beBytes 2 n,
          by simp [dataRecordValueWrite, signed_roundtrip 2 n hn256],
          by simp [dataRecordValueRead, c1_fixed 2 st st1 n hv hn, Bind.bind,
            Except.bind, pure, Except.pure]⟩
      · rw [if_neg h2] at h
        by_cases h4 : length = 4
        · subst h4
          rw [if_pos rfl, bind_ok] at h
          obtain ⟨⟨n, st1⟩, hn, h⟩ := h
          simp only [pure, Except.pure, Except.ok.injEq, Prod.mk.injEq] at h
          obtain ⟨hveq, _⟩ := h
          subst hveq
          obtain ⟨hn256, _, _, _⟩ := readBE_ok hn hv
          exact ⟨beBytes 4 n,
            by simp [dataRecordValueWrite, signed_roundtrip 4 n hn256],
            by simp [dataRecordValueRead, c1_fixed 4 st st1 n hv hn, Bind.bind,
              Except.bind, pure, Except.pure]⟩
        · rw [if_neg h4] at h
          by_cases h8 : length = 8
          · subst h8
            rw [if_pos rfl, bind_ok] at h
            obtain ⟨⟨n, st1⟩, hn, h⟩ := h
            simp only [pure, Except.pure, Except.ok.injEq, Prod.mk.injEq] at h
            obtain ⟨hveq, _⟩ := h
            subst hveq
            obtain ⟨hn256, _, _, _⟩ := readBE_ok hn hv
            exact ⟨beBytes 8 n,
              by simp [dataRecordValueWrite, signed_roundtrip 8 n hn256],
              by simp [dataRecordValueRead, c1_fixed 8 st st1 n hv hn,
                Bind.bind, Except.bind, pure, Except.pure]⟩
          · rw [if_neg h8] at h
            exact absurd h (by simp)
  | Float =>
    simp only [dataRecordValueRead] at h
    by_cases h4 : length = 4
    · subst h4
      rw [if_pos rfl, bind_ok] at h
      obtain ⟨⟨n, st1⟩, hn, h⟩ := h
      simp only [pure, Except.pure, Except.ok.injEq, Prod.mk.injEq] at h
      obtain ⟨hveq, _⟩ := h
      subst hveq
      exact ⟨beBytes 4 n, rfl,
        by simp [dataRecordValueRead, c1_fixed 4 st st1 n hv hn, Bind.bind,
          Except.bind, pure, Except.pure]⟩
    · rw [if_neg h4] at h
      by_cases h8 : length = 8
      · subst h8
        rw [if_pos rfl, bind_ok] at h
        obtain ⟨⟨n, st1⟩, hn, h⟩ := h
        simp only [pure, Except.pure, Except.ok.injEq, Prod.mk.injEq] at h
        obtain ⟨hveq, _⟩ := h
        subst hveq
        exact ⟨beBytes 8 n, rfl,
          by simp [dataRecordValueRead, c1_fixed 8 st st1 n hv hn, Bind.bind,
            Except.bind, pure, Except.pure]⟩
      · rw [if_neg h8] at h
        exact absurd h (by simp)
  | Bool =>
    simp only [dataRecordValueRead] at h
    by_cases h1 : length = 1
    · subst h1
      rw [if_pos rfl, bind_ok] at h
      obtain ⟨⟨b, st1⟩, hb, h⟩ := h
      simp only [pure, Except.pure, Except.ok.injEq, Prod.mk.injEq] at h
      obtain ⟨hveq, _⟩ := h
      subst hveq
      cases hb1 : b == 1 with
      | true =>
        exact ⟨[1], by simp [dataRecordValueWrite, hb1],
          by simp [dataRecordValueRead, readByte, hb1, Bind.bind, Except.bind,
            pure, Except.pure]⟩
      | false =>
        exact ⟨[2], by simp [dataRecordValueWrite, hb1],
          by simp [dataRecordValueRead, readByte, hb1, Bind.bind, Except.bind,
            pure, Except.pure]⟩
    · rw [if_neg h1] at h
      exact absurd h (by simp)
  | MacAddress =>
    simp only [dataRecordValueRead] at h
    by_cases h6 : length = 6
    · subst h6
      rw [if_pos rfl, bind_ok] at h
      obtain ⟨⟨m, st1⟩, hm, h⟩ := h
      simp only [pure, Except.pure, Except.ok.injEq, Prod.mk.injEq] at h
      obtain ⟨hveq, _⟩ := h
      subst hveq
      obtain ⟨_, hm6, _, _⟩ := readBytes_ok hm
      refine ⟨m, rfl, ?_⟩
      rw [hm6]
      simp [dataRecordValueRead, readBytes_exact 6 m 0 hm6, Bind.bind,
        Except.bind, pure, Except.pure]
    · rw [if_neg h6] at h
      exact absurd h (by simp)
  | Bytes =>
    simp only [dataRecordValueRead, bind_ok] at h
    obtain ⟨⟨payload, st1⟩, hrv, h⟩ := h
    simp only [pure, Except.pure, Except.ok.injEq, Prod.mk.injEq] at h
    obtain ⟨hveq, _⟩ := h
    subst hveq
    rcases read_variable_length_ok length st payload st1 hv hrv with
      ⟨hne, hlen⟩ | ⟨hsent, hle⟩
    · refine ⟨payload, ?_, ?_⟩
      · simp [dataRecordValueWrite, varLenPrefix, hne, Bind.bind, Except.bind,
          pure, Except.pure]
      · rw [← hlen]
        simp [dataRecordValueRead, read_variable_length,
          show payload.length ≠ 65535 from by omega,
          readBytes_exact payload.length payload 0 rfl, Bind.bind, Except.bind,
          pure, Except.pure]
    · subst hsent
      obtain ⟨pre, hpre, hre⟩ := varlen_roundtrip payload hle
      refine ⟨pre ++ payload, ?_, ?_⟩
      · simp [dataRecordValueWrite, hpre, Bind.bind, Except.bind, pure,
          Except.pure]
      · simp [dataRecordValueRead, hre, Bind.bind, Except.bind, pure,
          Except.pure]
  | String =>
    simp only [dataRecordValueRead, bind_ok] at h
    obtain ⟨⟨payload, st1⟩, hrv, h⟩ := h
    by_cases hval : utf8Valid payload
    · rw [if_pos hval] at h
      simp only [pure, Except.pure, Except.ok.injEq, Prod.mk.injEq] at h
      obtain ⟨hveq, _⟩ := h
      subst hveq
      rcases read_variable_length_ok length st payload st1 hv hrv with
        ⟨hne, hlen⟩ | ⟨hsent, hle⟩
      · refine ⟨payload, ?_, ?_⟩
        · simp [dataRecordValueWrite, varLenPrefix, hne, Bind.bind, Except.bind,
            pure, Except.pure]
        · rw [← hlen]
          simp [dataRecordValueRead, read_variable_length,
            show payload.length ≠ 65535 from by omega,
            readBytes_exact payload.length payload 0 rfl, hval, Bind.bind,
            Except.bind, pure, Except.pure]
      · subst hsent
        obtain ⟨pre, hpre, hre⟩ := varlen_roundtrip payload hle
        refine ⟨pre ++ payload, ?_, ?_⟩
        · simp [dataRecordValueWrite, hpre, Bind.bind, Except.bind, pure,
            Except.pure]
        · simp [dataRecordValueRead, hre, hval, Bind.bind, Except.bind, pure,
            Except.pure]
    · rw [if_neg hval] at h
      exact absurd h (by simp)
  | DateTimeSeconds =>
    simp only [dataRecordValueRead] at h
    by_cases h4 : length = 4
    · subst h4
      rw [if_pos rfl, bind_ok] at h
      obtain ⟨⟨n, st1⟩, hn, h⟩ := h
      simp only [pure, Except.pure, Except.ok.injEq, Prod.mk.injEq] at h
      obtain ⟨hveq, _⟩ := h
      subst hveq
      exact ⟨beBytes 4 n, rfl,
        by simp [dataRecordValueRead, c1_fixed 4 st st1 n hv hn, Bind.bind,
          Except.bind, pure, Except.pure]⟩
    · rw [if_neg h4] at h
      exact absurd h (by simp)
  | DateTimeMilliseconds =>
    simp only [dataRecordValueRead] at h
    by_cases h8 : length = 8
    · subst h8
      rw [if_pos rfl, bind_ok] at h
      obtain ⟨⟨n, st1⟩, hn, h⟩ := h
      simp only [pure, Except.pure, Except.ok.injEq, Prod.mk.injEq] at h
      obtain ⟨hveq, _⟩ := h
      subst hveq
      exact ⟨beBytes 8 n, rfl,
        by simp [dataRecordValueRead, c1_fixed 8 st st1 n hv hn, Bind.bind,
          Except.bind, pure, Except.pure]⟩
    · rw [if_neg h8] at h
      exact absurd h (by simp)
  | DateTimeMicroseconds =>
    simp only [dataRecordValueRead] at h
    by_cases h8 : length = 8
    · subst h8
      rw [if_pos rfl, bind_ok] at h
      obtain ⟨⟨n, st1⟩, hn, h⟩ := h
      simp only [pure, Except.pure, Except.ok.injEq, Prod.mk.injEq] at h
      obtain ⟨hveq, _⟩ := h
      subst hveq
      exact ⟨beBytes 8 n, rfl,
        by simp [dataRecordValueRead, c1_fixed 8 st st1 n hv hn, Bind.bind,
          Except.bind, pure, Except.pure]⟩
    · rw [if_neg h8] at h
      exact absurd h (by simp)
  | DateTimeNanoseconds =>
    simp only [dataRecordValueRead] at h
    by_cases h8 : length = 8
    · subst h8
      rw [if_pos rfl, bind_ok] at h
      obtain ⟨⟨n, st1⟩, hn, h⟩ := h
      simp only [pure, Except.pure, Except.ok.injEq, Prod.mk.injEq] at h
      obtain ⟨hveq, _⟩ := h
      subst hveq
      exact ⟨beBytes 8 n, rfl,
        by simp [dataRecordValueRead, c1_fixed 8 st st1 n hv hn, Bind.bind,
          Except.bind, pure, Except.pure]⟩
    · rw [if_neg h8] at h
      exact absurd h (by simp)
  | Ipv4Addr =>
    simp only [dataRecordValueRead] at h
    by_cases h4 : length = 4
    · subst h4
      rw [if_pos rfl, bind_ok] at h
      obtain ⟨⟨n, st1⟩, hn, h⟩ := h
      simp only [pure, Except.pure, Except.ok.injEq, Prod.mk.injEq] at h
      obtain ⟨hveq, _⟩ := h
      subst hveq
      exact ⟨beBytes 4 n, rfl,
        by simp [dataRecordValueRead, c1_fixed 4 st st1 n hv hn, Bind.bind,
          Except.bind, pure, Except.pure]⟩
    · rw [if_neg h4] at h
      exact absurd h (by simp)
  | Ipv6Addr =>
    simp only [dataRecordValueRead] at h
    by_cases h16 : length = 16
    · subst h16
      rw [if_pos rfl, bind_ok] at h
      obtain ⟨⟨n, st1⟩, hn, h⟩ := h
      simp only [pure, Except.pure, Except.ok.injEq, Prod.mk.injEq] at h
      obtain ⟨hveq, _⟩ := h
      subst hveq
      exact ⟨beBytes 16 n, rfl,
        by simp [dataRecordValueRead, c1_fixed 16 st st1 n hv hn, Bind.bind,
          Except.bind, pure, Except.pure]⟩
    · rw [if_neg h16] at h
      exact absurd h (by simp)

/-- Witness for C1 at the 40-bit boundary values named by the claim:
decoding the all-zero and all-`0xFF` 5-byte fields under
`(UnsignedInt, 5)` yields 0 and `0xFFFFFFFFFF`, and both round-trip. -/
theorem c1_value_roundtrip_witness :
    (∃ bs, dataRecordValueWrite 5 (.U40 0) = .ok bs ∧
      dataRecordValueRead .UnsignedInt 5 ⟨bs, 0⟩ = .ok (.U40 0, ⟨[], bs.length⟩)) ∧
    (∃ bs, dataRecordValueWrite 5 (.U40 0xFFFFFFFFFF) = .ok bs ∧
      dataRecordValueRead .UnsignedInt 5 ⟨bs, 0⟩ =
        .ok (.U40 0xFFFFFFFFFF, ⟨[], bs.length⟩)) := by
  constructor
  · exact c1_value_roundtrip .UnsignedInt 5 ⟨[0, 0, 0, 0, 0], 0⟩ ⟨[], 5⟩
      (.U40 0) (by decide) (by decide)
  · exact c1_value_roundtrip .UnsignedInt 5 ⟨[255, 255, 255, 255, 255], 0⟩ ⟨[], 5⟩
      (.U40 0xFFFFFFFFFF) (by decide) (by decide)

section BackpatchHelpers

theorem bufStore_append (buf bs : List Nat) :
    bufStore buf buf.length bs = buf ++ bs := by
  simp only [bufStore, Nat.sub_self, List.replicate_zero, List.append_nil,
    List.take_length]
  rw [List.drop_eq_nil_of_le (by omega), List.append_nil]

theorem wWrite_append (bs : List Nat) (w : WState) (hcur : w.cur = w.buf.length) :
    wWrite bs w = ⟨w.buf ++ bs, w.buf.length + bs.length⟩ := by
  unfold wWrite
  rw [hcur, bufStore_append]

theorem bufStore_length (buf : List Nat) (pos : Nat) (bs : List Nat)
    (h : pos + bs.length ≤ buf.length) :
    (bufStore buf pos bs).length = buf.length := by
  simp only [bufStore]
  rw [show pos - buf.length = 0 by omega]
  simp only [List.replicate_zero, List.append_nil]
  rw [List.length_append, List.length_append, List.length_take, List.length_drop]
  omega

theorem bufStore_take (buf : List Nat) (pos : Nat) (bs : List Nat) (i : Nat)
    (hi : i ≤ pos) (hpos : pos ≤ buf.length) :
    (bufStore buf pos bs).take i = buf.take i := by
  simp only [bufStore]
  rw [show pos - buf.length = 0 by omega]
  simp only [List.replicate_zero, List.append_nil]
  rw [List.take_append_of_le_length
    (by rw [List.length_append, List.length_take]; omega)]
  rw [List.take_append_of_le_length (by rw [List.length_take]; omega)]
  rw [List.take_take, Nat.min_eq_left hi]

theorem bufStore_getD (buf : List Nat) (pos : Nat) (a b : Nat)
    (h : pos + 2 ≤ buf.length) :
    (bufStore buf pos [a, b]).getD pos 0 = a ∧
      (bufStore buf pos [a, b]).getD (pos + 1) 0 = b := by
  simp only [bufStore]
  rw [show pos - buf.length = 0 by omega]
  simp only [List.replicate_zero, List.append_nil]
  have hlen : (buf.take pos).length = pos := by rw [List.length_take]; omega
  constructor
  · rw [List.getD_append _ _ _ _
      (by rw [List.length_append, List.length_take]; simp; omega)]
    rw [List.getD_append_right _ _ _ _ hlen.le, hlen, Nat.sub_self]
    rfl
  · rw [List.getD_append _ _ _ _
      (by rw [List.length_append, List.length_take]; simp; omega)]
    rw [List.getD_append_right _ _ _ _ (by rw [hlen]; omega), hlen,
      show pos + 1 - pos = 1 by omega]
    rfl

theorem beBytes_two (v : Nat) : beBytes 2 v = [v / 256 % 256, v % 256] := by
  have h1 : v % 256 % 256 = v % 256 := Nat.mod_mod_of_dvd v (dvd_refl 256)
  simp [beBytes, h1]

theorem readLenAt_patch (buf : List Nat) (pos v : Nat)
    (h : pos + 2 ≤ buf.length) (hv : v ≤ 65535) :
    readLenAt (bufStore buf pos (beBytes 2 v)) pos = v := by
  rw [beBytes_two]
  obtain ⟨g1, g2⟩ := bufStore_getD buf pos (v / 256 % 256) (v % 256) h
  unfold readLenAt
  rw [g1, g2]
  omega

theorem setWrite_spec (store : TemplateStore) (alignment : Nat) (s : Set)
    (w w' : WState) (hcur : w.cur = w.buf.length)
    (h : setWrite store alignment s w = .ok w') :
    w'.cur = w'.buf.length ∧ w.buf.length + 4 ≤ w'.buf.length ∧
      w'.buf.take w.buf.length = w.buf ∧
      readLenAt w'.buf (w.buf.length + 2) = w'.buf.length - w.buf.length ∧
      w'.buf.length - w.buf.length ≤ 65535 := by
  have e1 : wWrite (beBytes 2 s.records.set_id) w =
      ⟨w.buf ++ beBytes 2 s.records.set_id, w.buf.length + 2⟩ := by
    rw [wWrite_append _ _ hcur]
    simp [beBytes_length]
  simp only [setWrite, e1] at h
  split at h
  · exact absurd h (by simp)
  · split at h
    · exact absurd h (by simp)
    · rename_i hg1 content hrec
      split at h
      · exact absurd h (by simp)
      · rename_i hg2
        simp only [Except.ok.injEq] at h
        subst h
        have e2 : wWrite (beBytes 2 (w.buf.length + 2))
            (⟨w.buf ++ beBytes 2 s.records.set_id, w.buf.length + 2⟩ : WState) =
            ⟨(w.buf ++ beBytes 2 s.records.set_id) ++ beBytes 2 (w.buf.length + 2),
              w.buf.length + 4⟩ := by
          rw [wWrite_append _ _ (by simp [beBytes_length])]
          simp [beBytes_length]
        rw [e2] at hg2 ⊢
        set B2 := (w.buf ++ beBytes 2 s.records.set_id) ++
          beBytes 2 (w.buf.length + 2) with hB2
        have hB2len : B2.length = w.buf.length + 4 := by
          rw [hB2]
          simp [List.length_append, beBytes_length]
        have e3 : wWrite content (⟨B2, w.buf.length + 4⟩ : WState) =
            ⟨B2 ++ content, w.buf.length + 4 + content.length⟩ := by
          rw [wWrite_append _ _ (by rw [hB2len])]
          rw [hB2len]
        rw [e3] at hg2 ⊢
        have e4 : wWrite
            (List.replicate (alignPad alignment (w.buf.length + 4 + content.length)) 0)
            (⟨B2 ++ content, w.buf.length + 4 + content.length⟩ : WState) =
            ⟨(B2 ++ content) ++
              List.replicate (alignPad alignment (w.buf.length + 4 + content.length)) 0,
              w.buf.length + 4 + content.length +
                alignPad alignment (w.buf.length + 4 + content.length)⟩ := by
          rw [wWrite_append _ _ (by simp [List.length_append, hB2len])]
          simp [List.length_append, List.length_replicate, hB2len]
        rw [e4] at hg2 ⊢
        dsimp only at hg2 ⊢
        set p := alignPad alignment (w.buf.length + 4 + content.length) with hp
        set B4 := (B2 ++ content) ++ List.replicate p 0 with hB4
        have hB4len : B4.length = w.buf.length + 4 + content.length + p := by
          rw [hB4]
          simp [List.length_append, List.length_replicate, hB2len]
          omega
        have hvval : w.buf.length + 4 + content.length + p - (w.buf.length + 2 - 2) =
            4 + content.length + p := by omega
        have hv65535 : 4 + content.length + p ≤ 65535 := by omega
        have hpos2 : w.buf.length + 2 + 2 ≤ B4.length := by omega
        have hlenfinal : (bufStore B4 (w.buf.length + 2)
            (beBytes 2 (w.buf.length + 4 + content.length + p -
              (w.buf.length + 2 - 2)))).length = B4.length := by
          apply bufStore_length
          rw [beBytes_length]
          omega
        refine ⟨?_, ?_, ?_, ?_, ?_⟩
        · dsimp only
          rw [hlenfinal]
          omega
        · dsimp only
          rw [hlenfinal]
          omega
        · dsimp only
          rw [bufStore_take B4 (w.buf.length + 2) _ w.buf.length (by omega)
            (by omega)]
          rw [hB4, hB2]
          rw [List.append_assoc, List.append_assoc, List.append_assoc]
          rw [List.take_append_of_le_length (by omega)]
          exact List.take_length w.buf
        · dsimp only
          rw [hlenfinal, hvval]
          rw [hB4len, show w.buf.length + 4 + content.length + p - w.buf.length =
            4 + content.length + p by omega]
          exact readLenAt_patch B4 (w.buf.length + 2) (4 + content.length + p)
            hpos2 hv65535
        · dsimp only
          rw [hlenfinal]
          omega

theorem foldSets_spec (store : TemplateStore) (alignment : Nat) (sets : List Set) :
    ∀ (w w' : WState), w.cur = w.buf.length →
      sets.foldlM (fun w s => setWrite store alignment s w) w = .ok w' →
      w'.cur = w'.buf.length ∧ w.buf.length ≤ w'.buf.length ∧
        w'.buf.take w.buf.length = w.buf := by
  induction sets with
  | nil =>
    intro w w' hcur h
    simp only [List.foldlM_nil, pure, Except.pure, Except.ok.injEq] at h
    subst h
    exact ⟨hcur, Nat.le_refl _, List.take_length w.buf⟩
  | cons s rest ih =>
    intro w w' hcur h
    rw [List.foldlM_cons, bind_ok] at h
    obtain ⟨w1, hset, hrest⟩ := h
    obtain ⟨hcur1, hge1, htake1, _, _⟩ := setWrite_spec store alignment s w w1 hcur hset
    obtain ⟨hcur', hge', htake'⟩ := ih w1 w' hcur1 hrest
    refine ⟨hcur', by omega, ?_⟩
    have hstep : w'.buf.take w.buf.length =
        (w'.buf.take w1.buf.length).take w.buf.length := by
      rw [List.take_take, Nat.min_eq_left (by omega)]
    rw [hstep, htake', htake1]

theorem messageWrite_spec (store : TemplateStore) (alignment : Nat) (m : Message)
    (w' : WState) (h : messageWrite store alignment m ⟨[], 0⟩ = .ok w') :
    w'.cur = w'.buf.length ∧ readLenAt w'.buf 2 = w'.buf.length ∧
      16 ≤ w'.buf.length ∧ w'.buf.length ≤ 65535 := by
  have e1 : wWrite (beBytes 2 10) (⟨[], 0⟩ : WState) = ⟨beBytes 2 10, 2⟩ := by
    rw [wWrite_append _ _ rfl]
    simp [beBytes_length]
  have e2 : wWrite (beBytes 2 2) (⟨beBytes 2 10, 2⟩ : WState) =
      ⟨beBytes 2 10 ++ beBytes 2 2, 4⟩ := by
    rw [wWrite_append _ _ (by simp [beBytes_length])]
    simp [beBytes_length]
  have e3 : wWrite (beBytes 4 m.export_time)
      (⟨beBytes 2 10 ++ beBytes 2 2, 4⟩ : WState) =
      ⟨beBytes 2 10 ++ beBytes 2 2 ++ beBytes 4 m.export_time, 8⟩ := by
    rw [wWrite_append _ _ (by simp [beBytes_length])]
    simp [beBytes_length]
  have e4 : wWrite (beBytes 4 m.sequence_number)
      (⟨beBytes 2 10 ++ beBytes 2 2 ++ beBytes 4 m.export_time, 8⟩ : WState) =
      ⟨beBytes 2 10 ++ beBytes 2 2 ++ beBytes 4 m.export_time ++
        beBytes 4 m.sequence_number, 12⟩ := by
    rw [wWrite_append _ _ (by simp [beBytes_length])]
    simp [beBytes_length]
  have e5 : wWrite (beBytes 4 m.observation_domain_id)
      (⟨beBytes 2 10 ++ beBytes 2 2 ++ beBytes 4 m.export_time ++
        beBytes 4 m.sequence_number, 12⟩ : WState) =
      ⟨beBytes 2 10 ++ beBytes 2 2 ++ beBytes 4 m.export_time ++
        beBytes 4 m.sequence_number ++ beBytes 4 m.observation_domain_id, 16⟩ := by
    rw [wWrite_append _ _ (by simp [beBytes_length])]
    simp [beBytes_length]
  simp only [messageWrite, e1, e2, e3, e4, e5] at h
  set Bhdr := beBytes 2 10 ++ beBytes 2 2 ++ beBytes 4 m.export_time ++
    beBytes 4 m.sequence_number ++ beBytes 4 m.observation_domain_id with hBhdr
  have hBhdrlen : Bhdr.length = 16 := by
    rw [hBhdr]
    simp [List.length_append, beBytes_length]
  split at h
  · exact absurd h (by simp)
  · split at h
    · exact absurd h (by simp)
    · rename_i hg1 w6 hfold
      split at h
      · exact absurd h (by simp)
      · rename_i hg2
        simp only [Except.ok.injEq] at h
        subst h
        obtain ⟨hcur6, hge6, _⟩ :=
          foldSets_spec store alignment m.sets ⟨Bhdr, 16⟩ w6 (by rw [hBhdrlen]) hfold
        dsimp only at hge6
        rw [hBhdrlen] at hge6
        have hv : w6.cur - 0 = w6.buf.length := by omega
        have hv65535 : w6.buf.length ≤ 65535 := by omega
        have hpos : 2 + 2 ≤ w6.buf.length := by omega
        have hlenfinal : (bufStore w6.buf 2 (beBytes 2 (w6.cur - 0))).length =
            w6.buf.length := by
          apply bufStore_length
          rw [beBytes_length]
          omega
        refine ⟨?_, ?_, ?_, ?_⟩
        · dsimp only
          rw [hlenfinal]
          omega
        · dsimp only
          rw [hlenfinal, hv]
          exact readLenAt_patch w6.buf 2 w6.buf.length hpos hv65535
        · dsimp only
          rw [hlenfinal]
          omega
        · dsimp only
          rw [hlenfinal]
          omega

end BackpatchHelpers

/-- C8: after encoding a `Message` from an empty stream, the backpatched
16-bit length field at offset 2 equals the exact total byte count of the
message including its 16-byte header, each `Set` backpatches its own
length field (at its offset + 2) with the byte count of that set
including its 4-byte header (and leaves the bytes before the set
untouched), and after each backpatch the cursor is restored to the end of
the written content so sibling writes append correctly. -/
theorem c8_length_backpatch :
    (∀ store alignment m w',
      messageWrite store alignment m ⟨[], 0⟩ = .ok w' →
      readLenAt w'.buf 2 = w'.buf.length ∧ w'.cur = w'.buf.length ∧
        16 ≤ w'.buf.length) ∧
    (∀ store alignment s w w', w.cur = w.buf.length →
      setWrite store alignment s w = .ok w' →
      readLenAt w'.buf (w.buf.length + 2) = w'.buf.length - w.buf.length ∧
        w.buf.length + 4 ≤ w'.buf.length ∧
        w'.buf.take w.buf.length = w.buf ∧ w'.cur = w'.buf.length) := by
  constructor
  · intro store alignment m w' h
    obtain ⟨h1, h2, h3, _⟩ := messageWrite_spec store alignment m w' h
    exact ⟨h2, h1, h3⟩
  · intro store alignment s w w' hcur h
    obtain ⟨h1, h2, h3, h4, _⟩ := setWrite_spec store alignment s w w' hcur h
    exact ⟨h4, h2, h3, h1⟩

/-- Witness for C8: a concrete one-set message written from scratch (total
28 bytes, length field `0, 28` at offset 2) and a concrete set written at
offset 2 of an existing buffer (span 12, length field `0, 12` at offset
4, prefix preserved, cursor at the end). -/
theorem c8_length_backpatch_witness :
    (readLenAt [0, 10, 0, 28, 0, 0, 0, 1, 0, 0, 0, 2, 0, 0, 0, 3,
        0, 2, 0, 12, 1, 1, 0, 1, 0, 1, 0, 1] 2 = 28 ∧ (28 : Nat) = 28 ∧
      (16 : Nat) ≤ 28) ∧
    (readLenAt [7, 7, 0, 2, 0, 12, 1, 1, 0, 1, 0, 1, 0, 1] 4 = 12 ∧
      (6 : Nat) ≤ 14 ∧
      ([7, 7, 0, 2, 0, 12, 1, 1, 0, 1, 0, 1, 0, 1] : List Nat).take 2 = [7, 7] ∧
      (14 : Nat) = 14) := by
  constructor
  · have h := c8_length_backpatch.1 [] 4
      ⟨1, 2, 3, [⟨.template [⟨257, [⟨1, 1, none⟩]⟩]⟩]⟩
      ⟨[0, 10, 0, 28, 0, 0, 0, 1, 0, 0, 0, 2, 0, 0, 0, 3,
        0, 2, 0, 12, 1, 1, 0, 1, 0, 1, 0, 1], 28⟩ (by decide)
    exact ⟨h.1, rfl, by decide⟩
  · have h := c8_length_backpatch.2 [] 0 ⟨.template [⟨257, [⟨1, 1, none⟩]⟩]⟩
      ⟨[7, 7], 2⟩ ⟨[7, 7, 0, 2, 0, 12, 1, 1, 0, 1, 0, 1, 0, 1], 14⟩
      (by decide) (by decide)
    exact ⟨h.1, h.2.1, h.2.2.1, rfl⟩

end Ipfix
